import Mathlib

/-!
Verification development for the tooldantic repository.

The development shallowly embeds the two cores of the library:

* `src/tooldantic/schema_generators.py` — the schema generator chain
  (`CompatibilitySchemaGenerator` and its dialect subclasses).  JSON
  documents are modelled by the inductive type `Val`; Python dicts are
  association lists whose update/remove operations mirror Python dict
  semantics (replacement in place, append for fresh keys).  Recursive
  traversals take an explicit fuel argument; the Python originals have no
  fuel, so termination facts are stated as "some fuel suffices".
* `src/tooldantic/builder.py` — `ModelBuilder` and its helpers.  Built
  pydantic models are represented by `ModelRepr` (name, description and a
  field list); validation of data against a built model is modelled by
  `validateModel`.

Python `None` is `Val.vnull`; a Python exception is an `Except.error`; an
absent default (`...` / `inspect.Parameter.empty`) is `Option.none`.
Python objects are modelled immutably: where the source mutates a dict in
place, the embedding threads the rebuilt value instead.
-/

/-- A Python type object appearing as a *value* inside example data
(`{"name": str}`); `is_type_or_annotation` in `utils.py` recognises these. -/
inductive SType where
  | sStr : SType
  | sInt : SType
  | sFloat : SType
  | sBool : SType
  | sAny : SType
  | sList (t : SType) : SType
  deriving DecidableEq, Repr

/-- JSON-like Python values: the data schema documents and example-data
dictionaries are made of.  `vtype` is a Python type object used as a value. -/
inductive Val where
  | vnull : Val
  | vbool (b : Bool) : Val
  | vint (n : Int) : Val
  | vstr (s : String) : Val
  | varr (xs : List Val) : Val
  | vdict (kvs : List (String × Val)) : Val
  | vtype (t : SType) : Val
  deriving Repr

/-- A Python dict, as an association list in insertion order. -/
abbrev VObj := List (String × Val)

/-- Python `key in d`. -/
def dictHas (kvs : VObj) (k : String) : Bool := kvs.any (fun kv => kv.1 == k)

/-- Python `d.get(key)` (`none` when the key is absent). -/
def dictGet (kvs : VObj) (k : String) : Option Val :=
  (kvs.find? (fun kv => kv.1 == k)).map (fun kv => kv.2)

/-- Python `d.get(key, default)`. -/
def dictGetD (kvs : VObj) (k : String) (d : Val) : Val := (dictGet kvs k).getD d

/-- Python `d[key] = v`: replace in place, else append. -/
def dictSet : VObj → String → Val → VObj
  | [], k, v => [(k, v)]
  | (k', v') :: rest, k, v =>
      if k' == k then (k, v) :: rest else (k', v') :: dictSet rest k v

/-- Python `d.pop(key)` / `del d[key]` (no-op when the key is absent). -/
def dictRemove : VObj → String → VObj
  | [], _ => []
  | (k', v') :: rest, k => if k' == k then rest else (k', v') :: dictRemove rest k

/-- Python `d.update(u)`: each pair of `u` is written into `d` in order. -/
def dictUpdate (kvs upd : VObj) : VObj :=
  upd.foldl (fun acc kv => dictSet acc kv.1 kv.2) kvs

/-- Python truthiness of a value (`bool(v)`). -/
def pyTruthy : Val → Bool
  | .vnull => false
  | .vbool b => b
  | .vint n => n != 0
  | .vstr s => s != ""
  | .varr xs => !xs.isEmpty
  | .vdict kvs => !kvs.isEmpty
  | .vtype _ => true

/-- Python `a or b`. -/
def pyOr (a b : Val) : Val := if pyTruthy a then a else b

/-- Split a character list at every `/`, keeping empty pieces — the same
pieces Python `value.split("/")` yields. -/
def splitSlash : List Char → List Char → List (List Char)
  | [], acc => [acc.reverse]
  | c :: rest, acc =>
      if c == '/' then acc.reverse :: splitSlash rest [] else splitSlash rest (c :: acc)

/-- Python `value.split("/")[-1]` (`split` never returns an empty list). -/
def lastComp (s : String) : String := String.mk ((splitSlash s.data []).getLastD [])

/-- Python `str.capitalize()`: first character upper-cased, the rest lowered. -/
def pyCapitalize (s : String) : String := (s.take 1).toUpper ++ (s.drop 1).toLower

/-- A Python exception, or exhaustion of the embedding's explicit fuel. -/
inductive PyErr where
  | fuelOut : PyErr
  | typeErr (msg : String) : PyErr
  | valueErr (msg : String) : PyErr
  | notImplErr (msg : String) : PyErr
  | toolErr (msg : String) : PyErr
  | unmodeled (msg : String) : PyErr
  deriving DecidableEq, Repr

/-- The subterm relation on values: `SubVal v u` holds when `u` occurs in `v`
(at any depth, `v` itself included). -/
inductive SubVal : Val → Val → Prop where
  | refl (v : Val) : SubVal v v
  | inObj {kvs : List (String × Val)} {k : String} {w u : Val} :
      (k, w) ∈ kvs → SubVal w u → SubVal (.vdict kvs) u
  | inArr {xs : List Val} {w u : Val} :
      w ∈ xs → SubVal w u → SubVal (.varr xs) u

/-- No dict anywhere inside `v` holds an entry `key ↦ <string>`. -/
def StrEntryFree (key : String) (v : Val) : Prop :=
  ∀ kvs s, SubVal v (.vdict kvs) → (key, Val.vstr s) ∉ kvs

/-- Some dict inside `v` holds exactly the entry `key ↦ w`. -/
def HasEntry (key : String) (w : Val) (v : Val) : Prop :=
  ∃ kvs, SubVal v (.vdict kvs) ∧ (key, w) ∈ kvs

/-! ## `_remove_target_key` (schema_generators.py lines 89-99)

Removes every dict entry whose key is the target *and whose value is a
string* (the `isinstance(value, str)` guard — written for titles — stays in
place when the method is reused for `default` keys), recursing into the kept
values and into lists. -/

mutual

def removeTargetKey : Nat → String → Val → Except PyErr Val
  | 0, _, _ => .error .fuelOut
  | n+1, t, .vdict kvs =>
      match removeTargetKeyObj n t kvs with
      | .ok kvs' => .ok (.vdict kvs')
      | .error e => .error e
  | n+1, t, .varr xs =>
      match removeTargetKeyList n t xs with
      | .ok xs' => .ok (.varr xs')
      | .error e => .error e
  | _+1, _, v => .ok v

def removeTargetKeyObj : Nat → String → VObj → Except PyErr VObj
  | 0, _, _ => .error .fuelOut
  | _+1, _, [] => .ok []
  | n+1, t, (k, v) :: rest =>
      if k == t && (match v with | .vstr _ => true | _ => false) then
        removeTargetKeyObj n t rest
      else
        match removeTargetKey n t v with
        | .ok v' =>
            match removeTargetKeyObj n t rest with
            | .ok rest' => .ok ((k, v') :: rest')
            | .error e => .error e
        | .error e => .error e

def removeTargetKeyList : Nat → String → List Val → Except PyErr (List Val)
  | 0, _, _ => .error .fuelOut
  | _+1, _, [] => .ok []
  | n+1, t, x :: rest =>
      match removeTargetKey n t x with
      | .ok x' =>
          match removeTargetKeyList n t rest with
          | .ok rest' => .ok (x' :: rest')
          | .error e => .error e
      | .error e => .error e

end

/-! ## `_reorder_keys` (schema_generators.py lines 81-87)

The priority keys are popped first (in priority order), the remaining keys
follow with recursively reordered values, then every value of the merged
dict is reordered once more.  Lists are not entered (the source returns
non-dict values unchanged). -/

def keyOrder : List String :=
  ["name", "title", "type", "description", "strict", "format", "enum",
   "properties", "required", "items", "additionalProperties"]

mutual

def reorderKeys : Nat → Val → Except PyErr Val
  | 0, _ => .error .fuelOut
  | n+1, .vdict kvs =>
      let ordered : VObj :=
        keyOrder.foldl
          (fun acc k => match dictGet kvs k with
            | some v => acc ++ [(k, v)]
            | none => acc) []
      let remaining : VObj := keyOrder.foldl (fun acc k => dictRemove acc k) kvs
      match reorderVals n remaining with
      | .ok rem' =>
          match reorderVals n (ordered ++ rem') with
          | .ok all => .ok (.vdict all)
          | .error e => .error e
      | .error e => .error e
  | _+1, v => .ok v

def reorderVals : Nat → VObj → Except PyErr VObj
  | 0, _ => .error .fuelOut
  | _+1, [] => .ok []
  | n+1, (k, v) :: rest =>
      match reorderKeys n v with
      | .ok v' =>
          match reorderVals n rest with
          | .ok rest' => .ok ((k, v') :: rest')
          | .error e => .error e
      | .error e => .error e

end

/-! ## `_inline_all_of` (schema_generators.py lines 101-118)

A one-element `allOf` is replaced by its (recursively processed) single
member, merged into the surrounding dict; otherwise the traversal recurses
into dict values and list items. -/

mutual

def inlineAllOf : Nat → Val → Except PyErr Val
  | 0, _ => .error .fuelOut
  | n+1, .vdict kvs =>
      match dictGet kvs "allOf" with
      | some (.varr [x]) =>
          match inlineAllOf n x with
          | .ok (.vdict ikvs) => .ok (.vdict (dictRemove (dictUpdate kvs ikvs) "allOf"))
          | .ok _ => .ok (.vdict kvs)
          | .error e => .error e
      | _ =>
          match inlineAllOfVals n kvs with
          | .ok kvs' => .ok (.vdict kvs')
          | .error e => .error e
  | n+1, .varr xs =>
      match inlineAllOfList n xs with
      | .ok xs' => .ok (.varr xs')
      | .error e => .error e
  | _+1, v => .ok v

def inlineAllOfVals : Nat → VObj → Except PyErr VObj
  | 0, _ => .error .fuelOut
  | _+1, [] => .ok []
  | n+1, (k, v) :: rest =>
      match inlineAllOf n v with
      | .ok v' =>
          match inlineAllOfVals n rest with
          | .ok rest' => .ok ((k, v') :: rest')
          | .error e => .error e
      | .error e => .error e

def inlineAllOfList : Nat → List Val → Except PyErr (List Val)
  | 0, _ => .error .fuelOut
  | _+1, [] => .ok []
  | n+1, x :: rest =>
      match inlineAllOf n x with
      | .ok x' =>
          match inlineAllOfList n rest with
          | .ok rest' => .ok (x' :: rest')
          | .error e => .error e
      | .error e => .error e

end

/-! ## `_ensure_strict_json_schema` (schema_generators.py lines 120-178)

A non-dict node raises `TypeError`.  Note that the `items` branch of the
source is guarded by `isinstance(items, list)` — a *dict*-valued `items`
(the shape its own comment shows) is left untouched, while a list-valued
`items` is fed whole to the recursive call, which rejects it as a non-dict.
The `$defs` / `definitions` branches of the source rely on in-place
mutation; the embedding writes the processed bodies back instead. -/

mutual

def ensureStrict : Nat → Val → Except PyErr Val
  | 0, _ => .error .fuelOut
  | n+1, .vdict kvs0 =>
      let isObjType : Bool :=
        match dictGet kvs0 "type" with
        | some (.vstr s) => s == "object"
        | _ => false
      let kvs1 :=
        if isObjType && !(dictHas kvs0 "additionalProperties")
        then dictSet kvs0 "additionalProperties" (.vbool false) else kvs0
      match
        ((match dictGet kvs1 "properties" with
          | some (.vdict props) =>
              let kvsR := dictSet kvs1 "required" (.varr (props.map (fun p => Val.vstr p.1)))
              match ensureStrictVals n props with
              | .ok props' => .ok (dictSet kvsR "properties" (.vdict props'))
              | .error e => .error e
          | _ => .ok kvs1) : Except PyErr VObj)
      with
      | .error e => .error e
      | .ok kvs2 =>
        match
          ((match dictGet kvs2 "items" with
            | some (.varr xs) =>
                match ensureStrict n (.varr xs) with
                | .ok r => .ok (dictSet kvs2 "items" r)
                | .error e => .error e
            | _ => .ok kvs2) : Except PyErr VObj)
        with
        | .error e => .error e
        | .ok kvs3 =>
          match
            ((match dictGet kvs3 "anyOf" with
              | some (.varr xs) =>
                  match ensureStrictList n xs with
                  | .ok xs' => .ok (dictSet kvs3 "anyOf" (.varr xs'))
                  | .error e => .error e
              | _ => .ok kvs3) : Except PyErr VObj)
          with
          | .error e => .error e
          | .ok kvs4 =>
            match
              ((match dictGet kvs4 "allOf" with
                | some (.varr xs) =>
                    match ensureStrictList n xs with
                    | .ok xs' => .ok (dictSet kvs4 "allOf" (.varr xs'))
                    | .error e => .error e
                | _ => .ok kvs4) : Except PyErr VObj)
            with
            | .error e => .error e
            | .ok kvs5 =>
              match
                ((match dictGet kvs5 "$defs" with
                  | some (.vdict ds) =>
                      match ensureStrictVals n ds with
                      | .ok ds' => .ok (dictSet kvs5 "$defs" (.vdict ds'))
                      | .error e => .error e
                  | _ => .ok kvs5) : Except PyErr VObj)
              with
              | .error e => .error e
              | .ok kvs6 =>
                match
                  ((match dictGet kvs6 "definitions" with
                    | some (.vdict ds) =>
                        match ensureStrictVals n ds with
                        | .ok ds' => .ok (dictSet kvs6 "definitions" (.vdict ds'))
                        | .error e => .error e
                    | _ => .ok kvs6) : Except PyErr VObj)
                with
                | .error e => .error e
                | .ok kvs7 => .ok (.vdict kvs7)
  | _+1, _ => .error (.typeErr "Expected the schema node to be a dictionary")

def ensureStrictVals : Nat → VObj → Except PyErr VObj
  | 0, _ => .error .fuelOut
  | _+1, [] => .ok []
  | n+1, (k, v) :: rest =>
      match ensureStrict n v with
      | .ok v' =>
          match ensureStrictVals n rest with
          | .ok rest' => .ok ((k, v') :: rest')
          | .error e => .error e
      | .error e => .error e

def ensureStrictList : Nat → List Val → Except PyErr (List Val)
  | 0, _ => .error .fuelOut
  | _+1, [] => .ok []
  | n+1, x :: rest =>
      match ensureStrict n x with
      | .ok x' =>
          match ensureStrictList n rest with
          | .ok rest' => .ok (x' :: rest')
          | .error e => .error e
      | .error e => .error e

end

/-! ## `_inline_references` (schema_generators.py lines 52-79)

The `visited` set of the source is one Python `set` object created at the
top call and mutated (`visited.add`) by every recursive call, so it is
shared across the whole traversal; the embedding threads it as a list.  A
`$ref` whose target was already visited is replaced by the `"#"` marker;
otherwise the target's body is merged into the node (`schema.update` then
`schema.pop("$ref")`) and the whole updated node is re-traversed — the
source performs that re-traversal through a recursive call on `schema`,
which lands in the dict branch, so the embedding enters the loop directly.
The `parent` parameter of the source is passed along but never read; it is
omitted.  A non-string `$ref` value would raise in the source
(`value.split`), as would a non-dict definition body (`schema.update`). -/

mutual

def inlineRefs : Nat → VObj → Val → List String → Except PyErr (Val × List String)
  | 0, _, _, _ => .error .fuelOut
  | n+1, defs, .vdict kvs, vis =>
      match inlineLoop n defs kvs kvs vis with
      | .ok (kvs', vis') => .ok (.vdict kvs', vis')
      | .error e => .error e
  | n+1, defs, .varr xs, vis =>
      match inlineList n defs xs vis with
      | .ok (xs', vis') => .ok (.varr xs', vis')
      | .error e => .error e
  | _+1, _, v, vis => .ok (v, vis)

def inlineLoop : Nat → VObj → VObj → VObj → List String → Except PyErr (VObj × List String)
  | 0, _, _, _, _ => .error .fuelOut
  | _+1, _, [], cur, vis => .ok (cur, vis)
  | n+1, defs, (k, v) :: rest, cur, vis =>
      if k == "$ref" then
        match v with
        | .vstr s =>
            let refKey := lastComp s
            if vis.contains refKey then
              inlineLoop n defs rest (dictSet cur "$ref" (.vstr "#")) vis
            else
              let vis' := refKey :: vis
              match dictGet defs refKey with
              | some (.vdict bkvs) =>
                  let cur' := dictRemove (dictUpdate cur bkvs) "$ref"
                  match inlineLoop n defs cur' cur' vis' with
                  | .ok (cur'', vis'') => inlineLoop n defs rest cur'' vis''
                  | .error e => .error e
              | some _ => .error (.typeErr "update expects a mapping")
              | none =>
                  match inlineLoop n defs cur cur vis' with
                  | .ok (cur'', vis'') => inlineLoop n defs rest cur'' vis''
                  | .error e => .error e
        | _ => .error (.typeErr "the $ref value must be a string")
      else
        match inlineRefs n defs v vis with
        | .ok (v', vis') => inlineLoop n defs rest (dictSet cur k v') vis'
        | .error e => .error e

def inlineList : Nat → VObj → List Val → List String → Except PyErr (List Val × List String)
  | 0, _, _, _ => .error .fuelOut
  | _+1, _, [], vis => .ok ([], vis)
  | n+1, defs, x :: rest, vis =>
      match inlineRefs n defs x vis with
      | .ok (x', vis') =>
          match inlineList n defs rest vis' with
          | .ok (rest', vis'') => .ok (x' :: rest', vis'')
          | .error e => .error e
      | .error e => .error e

end

/-! ## `CompatibilitySchemaGenerator.generate` (schema_generators.py lines 34-50)

The four class flags select the passes; the `mode` argument and
`super().generate` itself are outside the embedding, so the function takes
the pydantic-produced base schema as input. -/

def compatibilityGenerate
    (applyStrictRules inlinedRefs reorderedKeys removedTitles : Bool)
    (fuel : Nat) (base : Val) : Except PyErr Val :=
  match base with
  | .vdict kvs0 =>
      -- title = json_schema.get("title")  (Python None when absent)
      let title : Val := dictGetD kvs0 "title" .vnull
      match (if applyStrictRules then ensureStrict fuel (.vdict kvs0) else .ok (.vdict kvs0)) with
      | .error e => .error e
      | .ok s1 =>
        match
          ((match s1 with
            | .vdict kvs1 =>
                if inlinedRefs && dictHas kvs1 "$defs" then
                  match dictGet kvs1 "$defs" with
                  | some (.vdict ds) =>
                      match inlineRefs fuel ds (.vdict (dictRemove kvs1 "$defs")) [] with
                      | .ok (r, _) => inlineAllOf fuel r
                      | .error e => .error e
                  | _ => .error (.typeErr "the $defs section must be a mapping")
                else .ok (.vdict kvs1)
            | v => .ok v) : Except PyErr Val)
        with
        | .error e => .error e
        | .ok s2 =>
          match (if reorderedKeys then reorderKeys fuel s2 else .ok s2) with
          | .error e => .error e
          | .ok s3 =>
            if removedTitles then
              match s3 with
              | .vdict kvs3 =>
                  -- top_level_title = json_schema.pop("title", title)
                  let topTitle : Val :=
                    if dictHas kvs3 "title" then dictGetD kvs3 "title" .vnull else title
                  match removeTargetKeyObj fuel "title" (dictRemove kvs3 "title") with
                  | .ok kvs4 => .ok (.vdict (dictSet kvs4 "title" topTitle))
                  | .error e => .error e
              | v => .ok v
            else .ok s3
  | _ => .error (.typeErr "the generated schema must be a dictionary")

/-- Pops `key` off a dict with a fallback, Python `d.pop(key, default)`:
the pair of the popped (or fallback) value and the remaining dict. -/
def dictPopD (kvs : VObj) (k : String) (d : Val) : Val × VObj :=
  if dictHas kvs k then (dictGetD kvs k .vnull, dictRemove kvs k) else (d, kvs)

/-- `GenericSchemaGenerator.generate` (schema_generators.py lines 186-195):
all four class flags are `False`. -/
def genericGenerate (fuel : Nat) (base : Val) : Except PyErr Val :=
  match compatibilityGenerate false false false false fuel base with
  | .error e => .error e
  | .ok (.vdict kvs) =>
      let (funcName, kvs1) := dictPopD kvs "title" (.vstr "function")
      let (funcDescription, kvs2) := dictPopD kvs1 "description" (.vstr "")
      .ok (.vdict [("name", funcName), ("description", funcDescription),
                   ("parameters", .vdict kvs2)])
  | .ok _ => .error (.typeErr "the generated schema must be a dictionary")

/-- `GoogleSchemaGenerator.generate` (schema_generators.py lines 203-206):
the generic document with `_remove_target_key(·, "default")` applied. -/
def googleGenerate (fuel : Nat) (base : Val) : Except PyErr Val :=
  match genericGenerate fuel base with
  | .ok s => removeTargetKey fuel "default" s
  | .error e => .error e

/-- `StrictBaseSchemaGenerator.generate` (schema_generators.py lines 219-232).
Its class flags are all `True`; `OpenAiStrictSchemaGenerator` overrides
`is_inlined_refs = False`, so the inlining flag is a parameter. -/
def strictBaseGenerate (inlinedRefs : Bool) (fuel : Nat) (base : Val) : Except PyErr Val :=
  match compatibilityGenerate true inlinedRefs true true fuel base with
  | .error e => .error e
  | .ok (.vdict kvs) =>
      let (funcName, kvs1) := dictPopD kvs "title" (.vstr "function")
      let (funcDescription, kvs2) := dictPopD kvs1 "description" (.vstr "")
      .ok (.vdict [("name", funcName), ("description", funcDescription),
                   ("strict", .vbool true), ("parameters", .vdict kvs2)])
  | .ok _ => .error (.typeErr "the generated schema must be a dictionary")

/-- `OpenAiStrictSchemaGenerator.generate` (schema_generators.py lines 242-248):
`is_inlined_refs = False` ("OpenAI works with refs"), wrapped in the
`{type: "function", function: ...}` envelope. -/
def openAiStrictGenerate (fuel : Nat) (base : Val) : Except PyErr Val :=
  match strictBaseGenerate false fuel base with
  | .ok s => .ok (.vdict [("type", .vstr "function"), ("function", s)])
  | .error e => .error e

/-! ## The model builder (builder.py)

A built pydantic model is represented by its name, its final docstring and
its field list; a field is `(name, type, field-info)`.  `FInfo.default =
none` models pydantic's "required" sentinel (`...`); the builder never
reaches the modeled fragment's boundary on the inputs the claims use, and
any unmodelled source path is an explicit `PyErr.unmodeled` error. -/

/-- Python `str(v)` as far as the embedding needs it (model names are
interpolated into f-strings; only `None` and strings occur there on the
modelled paths). -/
def pyStrOfName : Val → String
  | .vnull => "None"
  | .vstr s => s
  | .vint n => toString n
  | .vbool true => "True"
  | .vbool false => "False"
  | _ => "..."

/-- The `Field(...)` metadata attached to a built field. -/
structure FInfo where
  default : Option Val
  description : Option Val
  examples : Option Val
  constraints : List (String × Val)
  deriving Repr

/-- The Python type a field is given.  `tModel` is a dynamically created
nested model (`pydantic.create_model`), `tLiteral` a `Literal[...]` set,
`tAnnotated` an `Annotated[...]` whose metadata was not unpacked. -/
inductive PyType where
  | tStr : PyType
  | tInt : PyType
  | tFloat : PyType
  | tBool : PyType
  | tNone : PyType
  | tAny : PyType
  | tDate : PyType
  | tDatetime : PyType
  | tEmail : PyType
  | tUri : PyType
  | tLiteral (elems : List Val) : PyType
  | tList (t : PyType) : PyType
  | tModel (name : String) (fields : List (String × PyType × FInfo)) : PyType
  | tAnnotated (t : PyType) (meta : List Val) : PyType
  deriving Repr

/-- The python type object `st` as a field type. -/
def fromSType : SType → PyType
  | .sStr => .tStr
  | .sInt => .tInt
  | .sFloat => .tFloat
  | .sBool => .tBool
  | .sAny => .tAny
  | .sList t => .tList (fromSType t)

/-- A built model: `pydantic.create_model(name, __doc__=description, **fields)`. -/
structure ModelRepr where
  name : Val
  description : Val
  fields : List (String × PyType × FInfo)
  deriving Repr

/-- `ModelBuilder._create_pydantic_model` (builder.py lines 270-291): a
falsy (`None` or empty) description becomes the single-space string. -/
def createPydanticModel (modelName : Val) (fields : List (String × PyType × FInfo))
    (modelDescription : Val) : ModelRepr :=
  ⟨modelName, pyOr modelDescription (.vstr " "), fields⟩

/-- The configuration fields of `ModelBuilder` (builder.py lines 43-48).
`base_model` only selects the schema generator bound to the result and is
not part of the builder's behaviour modelled here. -/
structure Builder where
  defaultTypeForNone : PyType
  isSetDefaultsFromValues : Bool
  isParseDocstrings : Bool

/-- A `ModelBuilder()` with its default configuration. -/
def defaultBuilder : Builder := ⟨.tAny, false, false⟩

/-- The `effective_default` local of `_process_field`: the required sentinel
`...`, a plain value, or a `Field(description=...)` marker. -/
inductive EffDef where
  | ell : EffDef
  | val (v : Val) : EffDef
  | fdescr (d : Val) : EffDef
  deriving Repr

/-- The annotation argument of `_process_field`: `inspect.Parameter.empty`
or a type.  (A raw dict or literal-list annotation is possible in Python
but cannot be produced by the modelled call sites.) -/
inductive PAnn where
  | empty : PAnn
  | ofType (t : PyType) : PAnn

/-- The field-info a resolved `effective_default` stands for. -/
def finfoOfEff : EffDef → FInfo
  | .ell => ⟨none, none, none, []⟩
  | .val v => ⟨some v, none, none, []⟩
  | .fdescr d => ⟨none, some d, none, []⟩

/-- `_interpret_annotated_type` (builder.py lines 404-411). -/
def interpretAnnotatedType (t : PyType) (meta : List Val) (ed : EffDef) : PyType × FInfo :=
  if meta.all (fun m => match m with | .vstr _ => true | _ => false) then
    let desc := meta.headD .vnull
    let exs : Option Val := if meta.length ≤ 1 then none else some (.varr (meta.drop 1))
    (t, ⟨match ed with | .val v => some v | _ => none, some desc, exs, []⟩)
  else
    (.tAnnotated t meta, finfoOfEff ed)

mutual

/-- `ModelBuilder.model_from_dict` (builder.py lines 114-135). -/
def modelFromDict : Nat → Builder → VObj → String → Val → Bool → Bool → Except PyErr ModelRepr
  | 0, _, _, _, _, _, _ => .error .fuelOut
  | n+1, b, schemaDict, modelName, modelDescription, isSetDef, isSetDescr =>
      match processDictFields n b schemaDict modelName isSetDef isSetDescr with
      | .ok fields => .ok (createPydanticModel (.vstr modelName) fields modelDescription)
      | .error e => .error e

/-- The field loop of `model_from_dict`: every entry of the schema dict is
processed with an empty annotation and the entry's value as default. -/
def processDictFields : Nat → Builder → VObj → String → Bool → Bool →
    Except PyErr (List (String × PyType × FInfo))
  | 0, _, _, _, _, _ => .error .fuelOut
  | _+1, _, [], _, _, _ => .ok []
  | n+1, b, (name, value) :: rest, modelName, isSetDef, isSetDescr =>
      match processField n b name modelName .empty (some value) isSetDef isSetDescr with
      | .ok (t, fi) =>
          match processDictFields n b rest modelName isSetDef isSetDescr with
          | .ok fields => .ok ((name, t, fi) :: fields)
          | .error e => .error e
      | .error e => .error e

/-- `ModelBuilder._process_field` (builder.py lines 293-357).  The source's
`if annotation is str and use_descriptions: default = effective_default`
only rebinds a local that is never read again, and the final
`annotation or type(effective_default)` falls back only for a falsy
annotation, which no modelled annotation is. -/
def processField : Nat → Builder → String → String → PAnn → Option Val → Bool → Bool →
    Except PyErr (PyType × FInfo)
  | 0, _, _, _, _, _, _, _ => .error .fuelOut
  | n+1, b, fieldName, modelName, ann, default, useDefaults, useDescriptions =>
      let ed0 : EffDef := match default with | none => .ell | some v => .val v
      let ed1 : EffDef := if !useDefaults then .ell else ed0
      let ed2 : EffDef :=
        match default with
        | some (.vstr s) => if useDescriptions then .fdescr (.vstr s) else ed1
        | _ => ed1
      match ann with
      | .empty =>
          match default with
          | none => .error (.unmodeled "an empty annotation with an absent default")
          | some d =>
              match handleEmptyAnn n b d modelName fieldName with
              | .ok annT => afterAnn n b fieldName modelName annT ed2
              | .error e => .error e
      | .ofType t => afterAnn n b fieldName modelName t ed2

/-- The branches of `_process_field` that follow annotation resolution
(builder.py lines 329-357), in source order: dict-valued effective default,
list type, list-valued effective default, annotated type, plain return. -/
def afterAnn : Nat → Builder → String → String → PyType → EffDef → Except PyErr (PyType × FInfo)
  | 0, _, _, _, _, _ => .error .fuelOut
  | n+1, b, fieldName, modelName, t, ed =>
      match ed with
      | .val (.vdict d) => interpretSchemaDict n b fieldName d
      | _ =>
          match t with
          | .tList it => .ok (.tList it, finfoOfEff ed)
          | _ =>
              match ed with
              | .val (.varr xs) =>
                  match handleListDefault n b xs modelName with
                  | .ok lt => .ok (lt, finfoOfEff ed)
                  | .error e => .error e
              | _ =>
                  match t with
                  | .tAnnotated ft meta => .ok (interpretAnnotatedType ft meta ed)
                  | _ => .ok (t, finfoOfEff ed)

/-- `ModelBuilder._handle_empty_annotation` (builder.py lines 359-377).  The
second component of the source's returned pair is dead at the (only) call
site, so only the resolved annotation is returned. -/
def handleEmptyAnn : Nat → Builder → Val → String → String → Except PyErr PyType
  | 0, _, _, _, _ => .error .fuelOut
  | n+1, b, default, modelName, fieldName =>
      match default with
      | .vnull => .ok b.defaultTypeForNone
      | .vtype st => .ok (fromSType st)
      | .vdict d =>
          match modelFromDict n b d (modelName ++ "_" ++ pyCapitalize fieldName) .vnull false false with
          | .ok m => .ok (.tModel (pyStrOfName m.name) m.fields)
          | .error e => .error e
      | .varr xs => handleListDefault n b xs modelName
      | .vbool _ => .ok .tBool
      | .vint _ => .ok .tInt
      | .vstr _ => .ok .tStr

/-- `ModelBuilder._handle_list_default` (builder.py lines 389-399). -/
def handleListDefault : Nat → Builder → List Val → String → Except PyErr PyType
  | 0, _, _, _ => .error .fuelOut
  | n+1, b, xs, modelName =>
      match xs with
      | [] => .ok (.tList .tAny)
      | item :: _ =>
          match item with
          | .vdict d =>
              match modelFromDict n b d (modelName ++ "_Item") .vnull false false with
              | .ok m => .ok (.tList (.tModel (pyStrOfName m.name) m.fields))
              | .error e => .error e
          | .vtype st => .ok (.tList (fromSType st))
          | .vbool _ => .ok (.tList .tBool)
          | .vint _ => .ok (.tList .tInt)
          | .vstr _ => .ok (.tList .tStr)
          | .vnull => .ok (.tList .tNone)
          | .varr _ => .error (.unmodeled "a list-of-lists example value")

/-- `ModelBuilder._interpret_schema_dict` (builder.py lines 413-419). -/
def interpretSchemaDict : Nat → Builder → String → VObj → Except PyErr (PyType × FInfo)
  | 0, _, _, _ => .error .fuelOut
  | n+1, b, fieldName, value =>
      match modelFromDict n b value (pyCapitalize fieldName ++ "_Model") .vnull false false with
      | .ok m => .ok (.tModel (pyStrOfName m.name) m.fields, ⟨none, none, none, []⟩)
      | .error e => .error e

end

/-- The kind of a Python function parameter (`inspect.Parameter.kind`). -/
inductive PKind where
  | posOrKw : PKind
  | varPositional : PKind
  | kwOnly : PKind
  | varKeyword : PKind
  deriving DecidableEq, Repr

/-- One parameter of a Python callable: `ann` is its type annotation
(`none` = `inspect.Parameter.empty`), `default` its declared default
(`none` = no default). -/
structure Param where
  name : String
  kind : PKind
  ann : Option PyType
  default : Option Val

/-- A Python callable as `model_from_function` inspects it: its `__name__`,
its `__doc__` (a value; `Val.vnull` when absent) and its signature. -/
structure PyFunc where
  name : String
  doc : Val
  params : List Param

/-- The missing-annotation message of `model_from_function`
(builder.py line 87). -/
def missingAnnMsg (paramName funcName : String) : String :=
  "Parameter `" ++ paramName ++ "` in function `" ++ funcName ++
    "` has no annotation or docstring type."

/-- The parameter loop of `model_from_function` (builder.py lines 75-107),
on the path where docstring parsing is off (the docstring dict is empty):
unannotated `self`/`cls` are skipped, an unannotated `**kwargs` is skipped,
any other unannotated parameter raises `ToolError`, and every other
parameter is processed with `use_defaults=True`. -/
def processFuncParams : Nat → Builder → PyFunc → List Param → String →
    Except PyErr (List (String × PyType × FInfo))
  | 0, _, _, _, _ => .error .fuelOut
  | _+1, _, _, [], _ => .ok []
  | n+1, b, f, p :: rest, modelName =>
      if (p.name == "self" || p.name == "cls") && p.ann.isNone then
        processFuncParams n b f rest modelName
      else
        match p.ann with
        | none =>
            if p.kind == .varKeyword then
              processFuncParams n b f rest modelName
            else
              .error (.toolErr (missingAnnMsg p.name f.name))
        | some t =>
            match processField n b p.name modelName (.ofType t) p.default true false with
            | .ok (ft, fi) =>
                -- the `processed_field == (_Empty, ...)` re-check of the source
                -- cannot fire here: the resolved annotation is a concrete type
                match processFuncParams n b f rest modelName with
                | .ok fields => .ok ((p.name, ft, fi) :: fields)
                | .error e => .error e
            | .error e => .error e

/-- Python `model_name or func.__name__` (builder.py line 109; an empty
string is falsy). -/
def funcModelName (f : PyFunc) (modelName : Option String) : String :=
  match modelName with
  | some s => if s == "" then f.name else s
  | none => f.name

/-- `ModelBuilder.model_from_function` (builder.py lines 50-112) with
docstring parsing off (`is_parse_docstrings` false on the builder and the
call); the docstring-parsing path is outside the model. -/
def modelFromFunction (fuel : Nat) (b : Builder) (f : PyFunc)
    (modelName : Option String) (modelDescription : Val)
    (isParseDocstrings : Bool) : Except PyErr ModelRepr :=
  if b.isParseDocstrings || isParseDocstrings then
    .error (.unmodeled "docstring parsing")
  else
    match processFuncParams fuel b f f.params (funcModelName f modelName) with
    | .ok fields =>
        .ok (createPydanticModel (.vstr (funcModelName f modelName)) fields
              (pyOr modelDescription f.doc))
    | .error e => .error e

/-! ## `model_from_json_schema` and its helpers (builder.py lines 137-268) -/

/-! The `find_keys` helper of `_extract_schema_details` (builder.py lines
163-174): grab the wanted keys present at this level (overwriting earlier
finds), then — when not all keys were found yet — walk every dict value. -/

mutual

def findKeys : Nat → VObj → List String → VObj → Except PyErr VObj
  | 0, _, _, _ => .error .fuelOut
  | n+1, part, keys, result0 =>
      let result1 :=
        keys.foldl
          (fun acc key => match dictGet part key with
            | some v => dictSet acc key v
            | none => acc) result0
      if result1.length < keys.length then
        findKeysVals n part keys result1
      else .ok result1

def findKeysVals : Nat → VObj → List String → VObj → Except PyErr VObj
  | 0, _, _, _ => .error .fuelOut
  | _+1, [], _, acc => .ok acc
  | n+1, (_, v) :: rest, keys, acc =>
      match v with
      | .vdict kvs =>
          match findKeys n kvs keys acc with
          | .ok acc' => findKeysVals n rest keys acc'
          | .error e => .error e
      | _ => findKeysVals n rest keys acc

end

/-- `ModelBuilder._extract_schema_details` (builder.py lines 160-191):
returns `(name, description, parameters)`, each `Val.vnull` when nothing
was found; a document without a parameters/schema key falls back to the
whole document as parameters. -/
def extractSchemaDetails (fuel : Nat) (schema : VObj) : Except PyErr (Val × Val × Val) :=
  let titleOrName := if dictHas schema "title" then "title" else "name"
  let innerSchema := if dictHas schema "json_schema" then "schema" else "parameters"
  match findKeys fuel schema [titleOrName, "description", innerSchema] [] with
  | .error e => .error e
  | .ok found =>
      let found1 :=
        if dictHas found "schema" then
          dictSet (dictRemove found "schema") "parameters" (dictGetD found "schema" .vnull)
        else found
      let found2 :=
        if !(dictHas found1 "parameters") then
          dictSet found1 "parameters" (.vdict schema)
        else found1
      .ok (dictGetD found2 titleOrName .vnull,
           dictGetD found2 "description" .vnull,
           dictGetD found2 "parameters" .vnull)

/-- Python `"$defs" in parameters` for the possible parameter shapes (key
test for a dict, membership for a list, substring for a string, `TypeError`
otherwise). -/
def hasDefsPy : Val → Except PyErr Bool
  | .vdict kvs => .ok (dictHas kvs "$defs")
  | .varr xs => .ok (xs.any (fun x => match x with | .vstr s => s == "$defs" | _ => false))
  | .vstr s => .ok ((s.splitOn "$defs").length > 1)
  | _ => .error (.typeErr "argument is not a container")

/-- Python `field_name in required_fields` (builder.py line 207), for the
shapes a `required` entry can take. -/
def requiredContains (required : Val) (fieldName : String) : Except PyErr Bool :=
  match required with
  | .varr xs => .ok (xs.any (fun x => match x with | .vstr s => s == fieldName | _ => false))
  | .vdict kvs => .ok (dictHas kvs fieldName)
  | .vstr s => .ok ((s.splitOn fieldName).length > 1)
  | _ => .error (.typeErr "argument is not a container")

/-- `CONSTRAINTS_MAP` (builder.py lines 31-40), in source order. -/
def constraintsMap : List (String × String) :=
  [("minLength", "min_length"), ("maxLength", "max_length"),
   ("maxItems", "max_length"), ("minItems", "min_length"),
   ("minimum", "ge"), ("maximum", "le"),
   ("multipleOf", "multiple_of"), ("pattern", "pattern")]

mutual

/-- `ModelBuilder._parse_parameters` (builder.py lines 193-211): the
`required` list is read (line 200) and passed on, field by field. -/
def parseParameters : Nat → Val → String → Except PyErr (List (String × PyType × FInfo))
  | 0, _, _ => .error .fuelOut
  | n+1, .vdict p, parentName =>
      let required := dictGetD p "required" (.varr [])
      match dictGet p "properties" with
      | some (.vdict props) => parsePropsLoop n props required parentName
      | some _ => .error (.typeErr "properties is not a mapping")
      | none => .ok []
  | _+1, _, _ => .error (.typeErr "parameters is not a mapping")

def parsePropsLoop : Nat → VObj → Val → String → Except PyErr (List (String × PyType × FInfo))
  | 0, _, _, _ => .error .fuelOut
  | _+1, [], _, _ => .ok []
  | n+1, (fieldName, details) :: rest, required, parentName =>
      match requiredContains required fieldName with
      | .error e => .error e
      | .ok isReq =>
          match mapJsonTypeToPython n details fieldName parentName isReq with
          | .ok (t, fi) =>
              match parsePropsLoop n rest required parentName with
              | .ok fs => .ok ((fieldName, t, fi) :: fs)
              | .error e => .error e
          | .error e => .error e

/-- `ModelBuilder._map_json_type_to_python` (builder.py lines 213-268).
The `is_required` argument is received exactly as in the source — and, as
in the source, it is never read: the field's default comes only from the
property's own `default` key (line 225). -/
def mapJsonTypeToPython : Nat → Val → String → String → Bool → Except PyErr (PyType × FInfo)
  | 0, _, _, _, _ => .error .fuelOut
  | n+1, .vdict d, fieldName, parentName, _is_required =>
      let default := dictGet d "default"
      let examples := dictGet d "examples"
      let format := dictGet d "format"
      let constraints : List (String × Val) :=
        constraintsMap.foldl
          (fun acc kv => match dictGet d kv.1 with
            | some v => dictSet acc kv.2 v
            | none => acc) []
      let fi : FInfo := ⟨default, dictGet d "description", examples, constraints⟩
      match dictGet d "type" with
      | some (.vstr "string") =>
          if dictHas d "enum" then
            match dictGet d "enum" with
            | some (.varr enums) => .ok (.tLiteral enums, fi)
            | _ => .error (.unmodeled "a non-list enum")
          else
            (match format with
              | some (.vstr "date") => .ok (.tDate, fi)
              | some (.vstr "date-time") => .ok (.tDatetime, fi)
              | some (.vstr "email") => .ok (.tEmail, fi)
              | some (.vstr "uri") => .ok (.tUri, fi)
              | _ => .ok (.tStr, fi))
      | some (.vstr "integer") => .ok (.tInt, fi)
      | some (.vstr "number") => .ok (.tFloat, fi)
      | some (.vstr "boolean") => .ok (.tBool, fi)
      | some (.vstr "array") =>
          let itemDetails := dictGetD d "items" (.vdict [])
          match mapJsonTypeToPython n itemDetails (fieldName ++ "_item") parentName true with
          | .ok (it, _) => .ok (.tList it, fi)
          | .error e => .error e
      | some (.vstr "object") =>
          let modelName := parentName ++ "_" ++ pyCapitalize fieldName
          match parseParameters n (.vdict d) modelName with
          | .ok nested => .ok (.tModel modelName nested, fi)
          | .error e => .error e
      | _ => .ok (.tAny, fi)
  | _+1, _, _, _, _ => .error (.typeErr "details is not a mapping")

end

/-- `ModelBuilder.model_from_json_schema` (builder.py lines 137-158):
`ValueError` only when the extracted parameters value is Python `None`;
`NotImplementedError` when the parameters contain `$defs`. -/
def modelFromJsonSchema (fuel : Nat) (schema : VObj) (modelName : Option String) :
    Except PyErr ModelRepr :=
  match extractSchemaDetails fuel schema with
  | .error e => .error e
  | .ok (nameV, descV, params) =>
      let modelNameV : Val :=
        match modelName with
        | some s => pyOr (.vstr s) nameV
        | none => nameV
      match params with
      | .vnull => .error (.valueErr "No parameters found in the schema.")
      | _ =>
          match hasDefsPy params with
          | .error e => .error e
          | .ok true =>
              .error (.notImplErr "Nested models and schemas with $defs are not supported yet.")
          | .ok false =>
              match parseParameters fuel params (pyStrOfName modelNameV) with
              | .error e => .error e
              | .ok fields =>
                  .ok (createPydanticModel modelNameV fields (pyOr descV .vnull))

/-! ## Validation of data against a built model

Pydantic validation restricted to what the claims exercise: a present value
must match the field type (the lax string-to-number coercions and the
string-format validators are not modelled — the claims' inputs are exactly
typed), an absent one falls back to the field default (pydantic does not
re-validate defaults), extra keys are ignored (the default model config),
and a missing required field fails.  The result is the validated instance
as a dict in model field order. -/

mutual

def valEqB : Nat → Val → Val → Bool
  | 0, _, _ => false
  | _+1, .vnull, .vnull => true
  | _+1, .vbool a, .vbool b => a == b
  | _+1, .vint a, .vint b => a == b
  | _+1, .vstr a, .vstr b => a == b
  | n+1, .varr xs, .varr ys => valEqListB n xs ys
  | n+1, .vdict xs, .vdict ys => valEqObjB n xs ys
  | _+1, .vtype a, .vtype b => a == b
  | _+1, _, _ => false

def valEqListB : Nat → List Val → List Val → Bool
  | 0, _, _ => false
  | _+1, [], [] => true
  | n+1, x :: xs, y :: ys => valEqB n x y && valEqListB n xs ys
  | _+1, _, _ => false

def valEqObjB : Nat → VObj → VObj → Bool
  | 0, _, _ => false
  | _+1, [], [] => true
  | n+1, (k, x) :: xs, (k', y) :: ys => k == k' && valEqB n x y && valEqObjB n xs ys
  | _+1, _, _ => false

end

mutual

def checkVal : Nat → PyType → Val → Option Val
  | 0, _, _ => none
  | n+1, t, v =>
      match t, v with
      | .tStr, .vstr s => some (.vstr s)
      | .tInt, .vint m => some (.vint m)
      | .tFloat, .vint m => some (.vint m)
      | .tBool, .vbool b => some (.vbool b)
      | .tNone, .vnull => some .vnull
      | .tAny, w => some w
      | .tDate, .vstr s => some (.vstr s)
      | .tDatetime, .vstr s => some (.vstr s)
      | .tEmail, .vstr s => some (.vstr s)
      | .tUri, .vstr s => some (.vstr s)
      | .tLiteral elems, w => if elems.any (fun e => valEqB n e w) then some w else none
      | .tList it, .varr xs =>
          match checkList n it xs with
          | some xs' => some (.varr xs')
          | none => none
      | .tModel _ fs, .vdict dta =>
          match validateModel n fs dta with
          | some inst => some (.vdict inst)
          | none => none
      | .tAnnotated it _, w => checkVal n it w
      | _, _ => none

def checkList : Nat → PyType → List Val → Option (List Val)
  | 0, _, _ => none
  | _+1, _, [] => some []
  | n+1, it, x :: rest =>
      match checkVal n it x with
      | some x' =>
          match checkList n it rest with
          | some rest' => some (x' :: rest')
          | none => none
      | none => none

def validateModel : Nat → List (String × PyType × FInfo) → VObj → Option VObj
  | 0, _, _ => none
  | _+1, [], _ => some []
  | n+1, (name, t, fi) :: rest, dta =>
      match dictGet dta name with
      | some v =>
          match checkVal n t v with
          | some v' =>
              match validateModel n rest dta with
              | some inst => some ((name, v') :: inst)
              | none => none
          | none => none
      | none =>
          match fi.default with
          | some d =>
              match validateModel n rest dta with
              | some inst => some ((name, d) :: inst)
              | none => none
          | none => none

end

/-- A field is required exactly when its `FInfo` carries no default. -/
def fieldRequired (fi : FInfo) : Bool := fi.default.isNone

/-- The names of a model's fields that are required. -/
def requiredFieldNames (fields : List (String × PyType × FInfo)) : List String :=
  (fields.filter (fun f => fieldRequired f.2.2)).map (fun f => f.1)

/-! ## Path lookup and concrete documents used by the claims -/

/-- Follow a key path through nested dicts. -/
def getPath : Val → List String → Option Val
  | v, [] => some v
  | .vdict kvs, k :: rest =>
      match dictGet kvs k with
      | some v => getPath v rest
      | none => none
  | _, _ :: _ => none

/-- Is the error a `ValueError`? -/
def isValueErr : PyErr → Bool
  | .valueErr _ => true
  | _ => false

/-- An array schema whose `items` is a dict holding an object schema — the
common shape; `_ensure_strict_json_schema` checks `isinstance(items, list)`
and therefore never enters it. -/
def strictArrayDictItems : Val :=
  .vdict [("type", .vstr "array"),
          ("items", .vdict [("type", .vstr "object"),
                            ("properties", .vdict [("a", .vdict [("type", .vstr "string")])])])]

/-- An array schema whose `items` is a list: the source feeds the list to
the recursive call, which raises `TypeError` on any non-dict. -/
def strictArrayListItems : Val :=
  .vdict [("type", .vstr "array"),
          ("items", .varr [.vdict [("type", .vstr "object")]])]

/-- A definitions table with a single definition `D`. -/
def twoRefDefs : VObj := [("D", .vdict [("type", .vstr "string")])]

/-- A schema referencing `D` from two sibling (non-overlapping) paths. -/
def twoRefSchema : Val :=
  .vdict [("properties", .vdict [("a", .vdict [("$ref", .vstr "#/$defs/D")]),
                                 ("b", .vdict [("$ref", .vstr "#/$defs/D")])])]

/-- What `_inline_references` produces for `twoRefSchema`: the first
occurrence is expanded, the second becomes the `"#"` marker. -/
def twoRefOut : Val :=
  .vdict [("properties", .vdict [("a", .vdict [("type", .vstr "string")]),
                                 ("b", .vdict [("$ref", .vstr "#")])])]

/-- The definitions table of a self-referential model (`Node` holding an
optional `Node`), as pydantic renders it. -/
def recDefs : VObj :=
  [("Node",
    .vdict [("type", .vstr "object"),
            ("properties",
             .vdict [("next",
                      .vdict [("anyOf",
                               .varr [.vdict [("$ref", .vstr "#/$defs/Node")],
                                      .vdict [("type", .vstr "null")]])])]),
            ("required", .varr [.vstr "next"]),
            ("title", .vstr "Node")])]

/-- The root node of the recursive model's schema once `$defs` is popped. -/
def recRoot : Val := .vdict [("$ref", .vstr "#/$defs/Node")]

/-- The inlined form of the recursive schema: one expansion, then the
`"#"` marker at the recursion point. -/
def recOut : Val :=
  .vdict [("type", .vstr "object"),
          ("properties",
           .vdict [("next",
                    .vdict [("anyOf",
                             .varr [.vdict [("$ref", .vstr "#")],
                                    .vdict [("type", .vstr "null")]])])]),
          ("required", .varr [.vstr "next"]),
          ("title", .vstr "Node")]

/-- A base schema whose single property carries a boolean `default`. -/
def boolDefaultBase : Val :=
  .vdict [("title", .vstr "M"), ("type", .vstr "object"),
          ("properties", .vdict [("a", .vdict [("type", .vstr "boolean"),
                                               ("default", .vbool false)])])]

/-- What the Google dialect renders for `boolDefaultBase`: the non-string
`default` survives `_remove_target_key`. -/
def boolDefaultGoogleOut : Val :=
  .vdict [("name", .vstr "M"),
          ("description", .vstr ""),
          ("parameters",
           .vdict [("type", .vstr "object"),
                   ("properties", .vdict [("a", .vdict [("type", .vstr "boolean"),
                                                        ("default", .vbool false)])])])]

/-- A pydantic base schema using a `$defs` section with one nested model. -/
def innerRefBase : Val :=
  .vdict [("title", .vstr "M"), ("type", .vstr "object"),
          ("properties", .vdict [("x", .vdict [("$ref", .vstr "#/$defs/Inner")])]),
          ("required", .varr [.vstr "x"]),
          ("$defs", .vdict [("Inner",
                             .vdict [("type", .vstr "object"),
                                     ("properties", .vdict [("y", .vdict [("type", .vstr "string")])]),
                                     ("required", .varr [.vstr "y"]),
                                     ("title", .vstr "Inner")])])]

/-- The OpenAI-strict rendering of `innerRefBase`: strict-annotated and
reordered, titles stripped — but `$defs` and the `$ref` retained, because
`OpenAiStrictSchemaGenerator.is_inlined_refs = False`. -/
def innerRefOpenAiOut : Val :=
  .vdict [("type", .vstr "function"),
          ("function",
           .vdict [("name", .vstr "M"),
                   ("description", .vstr ""),
                   ("strict", .vbool true),
                   ("parameters",
                    .vdict [("type", .vstr "object"),
                            ("properties", .vdict [("x", .vdict [("$ref", .vstr "#/$defs/Inner")])]),
                            ("required", .varr [.vstr "x"]),
                            ("additionalProperties", .vbool false),
                            ("$defs",
                             .vdict [("Inner",
                                      .vdict [("type", .vstr "object"),
                                              ("properties", .vdict [("y", .vdict [("type", .vstr "string")])]),
                                              ("required", .varr [.vstr "y"]),
                                              ("additionalProperties", .vbool false)])])])])]

/-- The example-data dict of the spec's concrete scenario. -/
def exampleDict : VObj :=
  [("name", .vstr "John"), ("age", .vint 30), ("is_student", .vbool false)]

/-- The model built from `exampleDict` with `is_set_defaults_from_values`
and `is_set_descriptions_from_str_values` both on: the string value becomes
a description (so `name` is required), the others become defaults. -/
def exampleModel : ModelRepr :=
  ⟨.vstr "M", .vstr " ",
   [("name", .tStr, ⟨none, some (.vstr "John"), none, []⟩),
    ("age", .tInt, ⟨some (.vint 30), none, none, []⟩),
    ("is_student", .tBool, ⟨some (.vbool false), none, none, []⟩)]⟩

/-- A parameters object whose property `a` has no `default` key and whose
`required` list is empty. -/
def noDefaultParams : Val :=
  .vdict [("properties", .vdict [("a", .vdict [("type", .vstr "integer")])]),
          ("required", .varr [])]

/-- An unannotated single-parameter function (`def incomplete_function(name): ...`). -/
def incompleteFunction : PyFunc :=
  ⟨"incomplete_function", .vnull, [⟨"name", .posOrKw, none, none⟩]⟩

/-- A function with an annotated parameter followed by bare `**kwargs`. -/
def kwargsFunction : PyFunc :=
  ⟨"kw_function", .vnull,
   [⟨"x", .posOrKw, some .tInt, none⟩, ⟨"kwargs", .varKeyword, none, none⟩]⟩

/-! ## Reference-target bookkeeping for the termination proof of the
inlining pass

Every name `_inline_references` can ever add to `visited` is the last path
component of some `$ref` string present in the input schema or in a
definition body, or the marker name `"#"`; `refTargets` collects them. -/

mutual

def refTargets : Val → List String
  | .vdict kvs => refTargetsObj kvs
  | .varr xs => refTargetsList xs
  | _ => []

def refTargetsObj : VObj → List String
  | [] => []
  | (k, v) :: rest =>
      (if k == "$ref" then
        (match v with | .vstr s => [lastComp s] | _ => []) else [])
        ++ refTargets v ++ refTargetsObj rest

def refTargetsList : List Val → List String
  | [] => []
  | x :: rest => refTargets x ++ refTargetsList rest

end

/-- Every `$ref` target reachable inside `v` lies in `R`. -/
def RefBounded (R : List String) (v : Val) : Prop :=
  ∀ kvs s, SubVal v (.vdict kvs) → ("$ref", Val.vstr s) ∈ kvs → lastComp s ∈ R

/-- How many names of `R` are not yet visited: the decreasing part of the
termination measure of `_inline_references`. -/
def newCount (R vis : List String) : Nat := (R.toFinset \ vis.toFinset).card

/-! ## Helper lemmas about the subterm relation -/

theorem subVal_vdict_iff {kvs : List (String × Val)} {u : Val} :
    SubVal (.vdict kvs) u ↔ u = .vdict kvs ∨ ∃ k w, (k, w) ∈ kvs ∧ SubVal w u := by
  constructor
  · intro h
    cases h with
    | refl => exact Or.inl rfl
    | inObj hm hs => exact Or.inr ⟨_, _, hm, hs⟩
  · rintro (rfl | ⟨k, w, hm, hs⟩)
    · exact .refl _
    · exact .inObj hm hs

theorem subVal_varr_iff {xs : List Val} {u : Val} :
    SubVal (.varr xs) u ↔ u = .varr xs ∨ ∃ w, w ∈ xs ∧ SubVal w u := by
  constructor
  · intro h
    cases h with
    | refl => exact Or.inl rfl
    | inArr hm hs => exact Or.inr ⟨_, hm, hs⟩
  · rintro (rfl | ⟨w, hm, hs⟩)
    · exact .refl _
    · exact .inArr hm hs

theorem subVal_vnull {u : Val} : SubVal .vnull u ↔ u = .vnull := by
  constructor
  · intro h; cases h; rfl
  · rintro rfl; exact .refl _

theorem subVal_vbool {b : Bool} {u : Val} : SubVal (.vbool b) u ↔ u = .vbool b := by
  constructor
  · intro h; cases h; rfl
  · rintro rfl; exact .refl _

theorem subVal_vint {n : Int} {u : Val} : SubVal (.vint n) u ↔ u = .vint n := by
  constructor
  · intro h; cases h; rfl
  · rintro rfl; exact .refl _

theorem subVal_vstr {s : String} {u : Val} : SubVal (.vstr s) u ↔ u = .vstr s := by
  constructor
  · intro h; cases h; rfl
  · rintro rfl; exact .refl _

theorem subVal_vtype {t : SType} {u : Val} : SubVal (.vtype t) u ↔ u = .vtype t := by
  constructor
  · intro h; cases h; rfl
  · rintro rfl; exact .refl _

/-! ## C3: the strict pass and array `items` -/

/-- C3 — code bug.  The strict-mode annotation pass is claimed to recurse
into array `items`; the source checks `isinstance(items, list)` where its
own comment (`{ 'type': 'array', 'items': {...} }`) and the upstream
original (`is_dict`, cf. `utils.py`) show a dict test.  On the common
dict-valued `items` shape the pass returns the node untouched: no
`additionalProperties: false`, no `required` list in the inner object; a
list-valued `items` is handed whole to the recursion, which raises
`TypeError` on any non-dict. -/
theorem C3_strict_pass_skips_dict_items :
    ensureStrict 10 strictArrayDictItems = .ok strictArrayDictItems
    ∧ getPath strictArrayDictItems ["items", "additionalProperties"] = none
    ∧ getPath strictArrayDictItems ["items", "required"] = none
    ∧ ensureStrict 10 strictArrayListItems
        = .error (.typeErr "Expected the schema node to be a dictionary") :=
  ⟨rfl, rfl, rfl, rfl⟩

/-! ## C7: the example-data scenario -/

/-- C7 — confirmed.  Building `{"name": "John", "age": 30, "is_student":
False}` with `is_set_defaults_from_values=True` and
`is_set_descriptions_from_str_values=True` makes the string value a field
description (so `name` is required) and the others defaults; validating
`{name, age}` succeeds with `is_student = False` supplied by its default,
and validating `{age}` alone fails on the missing required `name`. -/
theorem C7_example_data_scenario :
    modelFromDict 10 defaultBuilder exampleDict "M" .vnull true true = .ok exampleModel
    ∧ validateModel 10 exampleModel.fields [("name", .vstr "John"), ("age", .vint 30)]
        = some [("name", .vstr "John"), ("age", .vint 30), ("is_student", .vbool false)]
    ∧ validateModel 10 exampleModel.fields [("age", .vint 30)] = none :=
  ⟨rfl, rfl, rfl⟩

/-! ## C4: the visited set of the inlining pass -/

/-- C4 — counterexample.  With one definition `D` referenced from two
non-overlapping sibling paths, only the first occurrence is expanded to
`D`'s body; the second is replaced by the `"#"` marker, contradicting the
claim that both occurrences are expanded. -/
theorem C4_counterexample_shared_ref_not_expanded :
    inlineRefs 20 twoRefDefs twoRefSchema [] = .ok (twoRefOut, ["D"])
    ∧ getPath twoRefOut ["properties", "b"] = some (.vdict [("$ref", .vstr "#")])
    ∧ Val.vdict [("$ref", .vstr "#")] ≠ Val.vdict [("type", .vstr "string")] :=
  ⟨rfl, rfl, by simp⟩

/-- C4 — amended.  `_inline_references` tracks visited names in one set
shared across the whole traversal (the `visited.add` of the source mutates
the single set created at the top call): any reference whose target is
already in that set — expanded anywhere earlier, not merely on the current
path — is replaced by the `"#"` marker, and on the two-sibling example the
first occurrence is expanded while the second becomes the marker. -/
theorem C4_visited_set_is_global :
    (∀ (n : Nat) (defs : VObj) (rest cur : VObj) (vis : List String) (s : String),
      vis.contains (lastComp s) = true →
      inlineLoop (n+1) defs (("$ref", .vstr s) :: rest) cur vis
        = inlineLoop n defs rest (dictSet cur "$ref" (.vstr "#")) vis)
    ∧ inlineRefs 20 twoRefDefs twoRefSchema [] = .ok (twoRefOut, ["D"])
    ∧ getPath twoRefOut ["properties", "a"] = some (.vdict [("type", .vstr "string")])
    ∧ getPath twoRefOut ["properties", "b"] = some (.vdict [("$ref", .vstr "#")]) := by
  refine ⟨?_, rfl, rfl, rfl⟩
  intro n defs rest cur vis s h
  simp only [inlineLoop, h]
  rfl

/-! ## C2: the OpenAI-strict envelope -/

/-- C2 — counterexample.  For a model with a nested definition the
OpenAI-strict output keeps the `$defs` section and the `$ref` node inside
`function.parameters`: the parameters schema is not fully inlined
(`OpenAiStrictSchemaGenerator.is_inlined_refs = False`). -/
theorem C2_counterexample_defs_retained :
    openAiStrictGenerate 40 innerRefBase = .ok innerRefOpenAiOut
    ∧ (getPath innerRefOpenAiOut ["function", "parameters", "$defs", "Inner"]).isSome = true
    ∧ getPath innerRefOpenAiOut ["function", "parameters", "properties", "x", "$ref"]
        = some (.vstr "#/$defs/Inner") :=
  ⟨rfl, rfl, rfl⟩

/-- C2 — amended.  Every OpenAI-strict rendering is the envelope
`{type: "function", function: {name, description, strict: true,
parameters}}` where the parameters schema is the strict-annotated,
reordered, title-stripped base schema *without* reference inlining
(the inlining flag of the compatibility pass is off). -/
theorem C2_openai_strict_envelope :
    ∀ (fuel : Nat) (base out : Val), openAiStrictGenerate fuel base = .ok out →
      ∃ kvs, compatibilityGenerate true false true true fuel base = .ok (.vdict kvs)
        ∧ out = .vdict
            [("type", .vstr "function"),
             ("function", .vdict
               [("name", (dictPopD kvs "title" (.vstr "function")).1),
                ("description",
                 (dictPopD (dictPopD kvs "title" (.vstr "function")).2 "description" (.vstr "")).1),
                ("strict", .vbool true),
                ("parameters",
                 .vdict (dictPopD (dictPopD kvs "title" (.vstr "function")).2 "description" (.vstr "")).2)])] := by
  intro fuel base out h
  unfold openAiStrictGenerate strictBaseGenerate at h
  cases hc : compatibilityGenerate true false true true fuel base with
  | error e => rw [hc] at h; exact absurd h (by simp)
  | ok v =>
      rw [hc] at h
      cases v with
      | vdict kvs => exact ⟨kvs, rfl, by simpa using h.symm⟩
      | vnull => exact absurd h (by simp)
      | vbool b => exact absurd h (by simp)
      | vint n => exact absurd h (by simp)
      | vstr s => exact absurd h (by simp)
      | varr xs => exact absurd h (by simp)
      | vtype t => exact absurd h (by simp)

/-- C2 — witness: the envelope theorem applied to `innerRefBase`. -/
theorem C2_openai_strict_envelope_witness :
    ∃ kvs, compatibilityGenerate true false true true 40 innerRefBase = .ok (.vdict kvs)
      ∧ innerRefOpenAiOut = .vdict
          [("type", .vstr "function"),
           ("function", .vdict
             [("name", (dictPopD kvs "title" (.vstr "function")).1),
              ("description",
               (dictPopD (dictPopD kvs "title" (.vstr "function")).2 "description" (.vstr "")).1),
              ("strict", .vbool true),
              ("parameters",
               .vdict (dictPopD (dictPopD kvs "title" (.vstr "function")).2 "description" (.vstr "")).2)])] :=
  C2_openai_strict_envelope 40 innerRefBase innerRefOpenAiOut rfl

/-! ## C1: requiredness of JSON-schema properties -/

/-- C1 — counterexample.  The property `a` does not appear in the schema's
(empty) `required` list, yet the built field carries no default and is
therefore required. -/
theorem C1_counterexample_required_list_ignored :
    parseParameters 10 noDefaultParams "M"
      = .ok [("a", .tInt, ⟨none, none, none, []⟩)]
    ∧ requiredContains (.varr []) "a" = .ok false
    ∧ fieldRequired ⟨none, none, none, []⟩ = true :=
  ⟨rfl, rfl, rfl⟩

/-- C1 — amended.  A property of the parameters object is required in the
built model iff its own schema carries no `default` key: the `is_required`
flag computed from the `required` list is passed to
`_map_json_type_to_python` but never read.  A field whose info carries no
default makes validation fail whenever the field is absent from the data;
a `required`-listed property with a `default` key becomes optional. -/
theorem C1_required_iff_no_default_key :
    (∀ (n : Nat) (kvs : VObj) (fieldName parentName : String) (req : Bool)
        (t : PyType) (fi : FInfo),
      mapJsonTypeToPython (n+1) (.vdict kvs) fieldName parentName req = .ok (t, fi) →
      (fieldRequired fi = true ↔ dictGet kvs "default" = none))
    ∧ (∀ (n : Nat) (fields : List (String × PyType × FInfo)) (dta : VObj)
        (name : String) (t : PyType) (fi : FInfo),
      (name, t, fi) ∈ fields → fieldRequired fi = true → dictGet dta name = none →
      validateModel n fields dta = none)
    ∧ mapJsonTypeToPython 5 (.vdict [("type", .vstr "boolean"), ("default", .vbool false)])
        "is_student" "M" true
        = .ok (.tBool, ⟨some (.vbool false), none, none, []⟩) := by
  refine ⟨?_, ?_, rfl⟩
  · intro n kvs fieldName parentName req t fi h
    simp only [mapJsonTypeToPython] at h
    repeat' split at h
    all_goals
      first
        | (cases h; simp [fieldRequired, Option.isNone_iff_eq_none])
        | simp_all [fieldRequired, Option.isNone_iff_eq_none]
  · intro n fields dta name t fi hmem hreq habs
    have hd : fi.default = none := by
      simpa [fieldRequired, Option.isNone_iff_eq_none] using hreq
    induction fields generalizing n with
    | nil => cases hmem
    | cons f rest ih =>
        cases n with
        | zero => rfl
        | succ m =>
            obtain ⟨fn, ft, ffi⟩ := f
            rcases List.mem_cons.mp hmem with heq | htail
            · cases heq
              simp [validateModel, habs, hd]
            · simp only [validateModel]
              split
              · split
                · rw [ih m htail]
                · rfl
              · split
                · rw [ih m htail]
                · rfl

/-! ## C8: when `model_from_json_schema` raises `ValueError` -/

theorem requiredContains_no_valueErr :
    ∀ (req : Val) (fn : String) (e : PyErr),
      requiredContains req fn = .error e → isValueErr e = false := by
  intro req fn e h
  cases req <;> simp only [requiredContains] at h <;> cases h <;> rfl

theorem hasDefsPy_no_valueErr :
    ∀ (v : Val) (e : PyErr), hasDefsPy v = .error e → isValueErr e = false := by
  intro v e h
  cases v <;> simp only [hasDefsPy] at h <;> cases h <;> rfl

theorem parseFns_no_valueErr : ∀ n : Nat,
    (∀ (p : Val) (pn : String) (e : PyErr),
      parseParameters n p pn = .error e → isValueErr e = false)
    ∧ (∀ (props : VObj) (req : Val) (pn : String) (e : PyErr),
      parsePropsLoop n props req pn = .error e → isValueErr e = false)
    ∧ (∀ (d : Val) (fn pn : String) (r : Bool) (e : PyErr),
      mapJsonTypeToPython n d fn pn r = .error e → isValueErr e = false) := by
  intro n
  induction n with
  | zero =>
      refine ⟨?_, ?_, ?_⟩
      · intro p pn e h; simp only [parseParameters] at h; cases h; rfl
      · intro props req pn e h; simp only [parsePropsLoop] at h; cases h; rfl
      · intro d fn pn r e h; simp only [mapJsonTypeToPython] at h; cases h; rfl
  | succ m ih =>
      obtain ⟨ihp, ihl, ihm⟩ := ih
      refine ⟨?_, ?_, ?_⟩
      · intro p pn e h
        cases p <;> simp only [parseParameters] at h
        all_goals
          first
            | (cases h <;> rfl)
            | (repeat' split at h
               all_goals
                 first
                   | (cases h <;> rfl)
                   | exact ihl _ _ _ _ h)
      · intro props req pn e h
        cases props with
        | nil => simp only [parsePropsLoop] at h; cases h
        | cons a rest =>
            obtain ⟨fieldName, details⟩ := a
            simp only [parsePropsLoop] at h
            repeat' split at h
            all_goals
              first
                | (cases h <;> rfl)
                | (injection h with h1; subst h1;
                   first
                     | exact requiredContains_no_valueErr _ _ _ (by assumption)
                     | exact ihm _ _ _ _ _ (by assumption)
                     | exact ihl _ _ _ _ (by assumption))
      · intro d fn pn r e h
        cases d <;> simp only [mapJsonTypeToPython] at h
        all_goals
          first
            | (cases h <;> rfl)
            | (repeat' split at h
               all_goals
                 first
                   | (cases h <;> rfl)
                   | (injection h with h1; subst h1;
                      first
                        | exact ihm _ _ _ _ _ (by assumption)
                        | exact ihp _ _ _ (by assumption)))

/-- C8 — counterexample.  A document with no parameters (and no schema)
key at all does not raise `ValueError`: the whole document becomes the
parameters object and an (empty) model is built. -/
theorem C8_counterexample_no_parameters_key :
    modelFromJsonSchema 10 [] (some "M") = .ok ⟨.vstr "M", .vstr " ", []⟩
    ∧ dictHas [] "parameters" = false
    ∧ dictHas [] "json_schema" = false :=
  ⟨rfl, rfl, rfl⟩

/-- C8 — amended.  `model_from_json_schema` raises `ValueError` iff the
parameters value located by `_extract_schema_details` is Python `None`
(which requires an explicit `parameters: None` / `schema: None` entry);
a document lacking the key entirely falls back to the whole document as
parameters and does not raise. -/
theorem C8_valueError_iff_null_parameters :
    ∀ (n : Nat) (schema : VObj) (mn : Option String) (nv dv pv : Val),
      extractSchemaDetails n schema = .ok (nv, dv, pv) →
      ((∃ msg, modelFromJsonSchema n schema mn = .error (.valueErr msg)) ↔ pv = .vnull) := by
  intro n schema mn nv dv pv hx
  constructor
  · rintro ⟨msg, h⟩
    unfold modelFromJsonSchema at h
    rw [hx] at h
    cases pv <;> simp only at h
    case vnull => rfl
    all_goals repeat' split at h
    all_goals
      (cases h <;>
        first
          | (have hv := hasDefsPy_no_valueErr _ _ (by assumption);
             simp [isValueErr] at hv)
          | (have hv := (parseFns_no_valueErr n).1 _ _ _ (by assumption);
             simp [isValueErr] at hv))
  · rintro rfl
    refine ⟨"No parameters found in the schema.", ?_⟩
    unfold modelFromJsonSchema
    rw [hx]

/-- C8 — witness: the iff applied to the document `{"parameters": None}`,
whose extracted parameters value is `None`. -/
theorem C8_valueError_iff_null_parameters_witness :
    (∃ msg, modelFromJsonSchema 10 [("parameters", Val.vnull)] (some "M")
        = .error (.valueErr msg)) ↔ Val.vnull = Val.vnull :=
  C8_valueError_iff_null_parameters 10 [("parameters", Val.vnull)] (some "M")
    .vnull .vnull .vnull rfl

/-! ## C9: missing annotations in `model_from_function` -/

/-- C9 — confirmed.  With docstring parsing off, an unannotated parameter
(that is not `self`/`cls` and not `**kwargs`) makes `model_from_function`
raise the `ToolError` whose message names the parameter and the function,
while an unannotated variadic-keyword parameter is silently skipped (the
loop continues on the remaining parameters unchanged). -/
theorem C9_missing_annotation_raises_kwargs_skipped :
    (∀ (n : Nat) (b : Builder) (f : PyFunc) (mn : Option String) (md : Val)
        (p : Param) (post : List Param),
      b.isParseDocstrings = false →
      f.params = p :: post →
      p.ann = none → p.name ≠ "self" → p.name ≠ "cls" → p.kind ≠ PKind.varKeyword →
      modelFromFunction (n+1) b f mn md false
        = .error (.toolErr (missingAnnMsg p.name f.name)))
    ∧ (∀ (n : Nat) (b : Builder) (f : PyFunc) (rest : List Param) (mName : String)
        (p : Param),
      p.ann = none → p.kind = PKind.varKeyword →
      processFuncParams (n+1) b f (p :: rest) mName
        = processFuncParams n b f rest mName)
    ∧ modelFromFunction 3 defaultBuilder incompleteFunction none .vnull false
        = .error (.toolErr (missingAnnMsg "name" "incomplete_function"))
    ∧ modelFromFunction 3 defaultBuilder kwargsFunction none .vnull false
        = .ok ⟨.vstr "kw_function", .vstr " ",
               [("x", .tInt, ⟨none, none, none, []⟩)]⟩ := by
  refine ⟨?_, ?_, rfl, rfl⟩
  · intro n b f mn md p post hdoc hparams hann hself hcls hkind
    unfold modelFromFunction
    rw [hdoc, hparams]
    simp only [Bool.false_or, if_false]
    have hskip : ((p.name == "self" || p.name == "cls") && p.ann.isNone) = false := by
      simp [hself, hcls]
    simp only [processFuncParams, hskip, hann]
    have hk : (p.kind == PKind.varKeyword) = false := by
      simp [hkind]
    simp only [hk, Bool.false_eq_true, if_false]
    rw [if_neg (by simp [hself, hcls])]
  · intro n b f rest mName p hann hkind
    simp only [processFuncParams, hann, hkind]
    split
    · rfl
    · simp

/-! ## C10: the single-space fallback description -/

/-- C10 — confirmed.  `_create_pydantic_model` replaces a falsy (Python
`None` or empty-string) description with the single-space string, so a
built model's docstring is never `None` and never empty; the three builder
entry points all pass their description through it. -/
theorem C10_description_single_space_fallback :
    (∀ (nm : Val) (fields : List (String × PyType × FInfo)) (d : Val),
      ((createPydanticModel nm fields d).description = .vstr " "
        ↔ (pyTruthy d = false ∨ d = .vstr " "))
      ∧ (createPydanticModel nm fields d).description ≠ .vnull
      ∧ (createPydanticModel nm fields d).description ≠ .vstr "")
    ∧ (∀ (n : Nat) (b : Builder) (sd : VObj) (mn : String) (md : Val)
        (f1 f2 : Bool) (m : ModelRepr),
      modelFromDict n b sd mn md f1 f2 = .ok m →
      pyTruthy md = false → m.description = .vstr " ")
    ∧ (∀ (n : Nat) (b : Builder) (f : PyFunc) (mn : Option String) (md : Val)
        (fl : Bool) (m : ModelRepr),
      modelFromFunction n b f mn md fl = .ok m →
      pyTruthy md = false → pyTruthy f.doc = false → m.description = .vstr " ")
    ∧ (∀ (n : Nat) (schema : VObj) (mn : Option String) (nv dv pv : Val) (m : ModelRepr),
      extractSchemaDetails n schema = .ok (nv, dv, pv) →
      pyTruthy dv = false →
      modelFromJsonSchema n schema mn = .ok m →
      m.description = .vstr " ") := by
  refine ⟨?_, ?_, ?_, ?_⟩
  · intro nm fields d
    refine ⟨?_, ?_, ?_⟩ <;> simp only [createPydanticModel, pyOr]
    · cases hd : pyTruthy d with
      | true => simp [hd]
      | false => simp [hd]
    · cases hd : pyTruthy d with
      | true =>
          simp only [hd, if_true]
          intro heq; subst heq; simp [pyTruthy] at hd
      | false => simp [hd]
    · cases hd : pyTruthy d with
      | true =>
          simp only [hd, if_true]
          intro heq; subst heq; simp [pyTruthy] at hd
      | false => simp [hd]
  · intro n b sd mn md f1 f2 m h hmd
    cases n with
    | zero => cases h
    | succ k =>
        simp only [modelFromDict] at h
        split at h
        · cases h
          simp [createPydanticModel, pyOr, hmd]
        · cases h
  · intro n b f mn md fl m h hmd hdoc
    unfold modelFromFunction at h
    split at h
    · cases h
    · cases hp : processFuncParams n b f f.params (funcModelName f mn) with
      | ok fields =>
          rw [hp] at h
          cases h
          simp [createPydanticModel, pyOr, hmd, hdoc]
      | error e => rw [hp] at h; cases h
  · intro n schema mn nv dv pv m hx hdv h
    unfold modelFromJsonSchema at h
    rw [hx] at h
    cases pv <;> simp only at h <;>
      (repeat' split at h) <;>
        cases h <;> (cases dv <;> simp_all [createPydanticModel, pyOr, pyTruthy])

/-! ## C6: the Google dialect and `default` keys -/

theorem strEntryFree_vdict {key : String} {kvs : VObj} :
    StrEntryFree key (.vdict kvs)
      ↔ ((∀ s, (key, Val.vstr s) ∉ kvs) ∧ ∀ k w, (k, w) ∈ kvs → StrEntryFree key w) := by
  constructor
  · intro h
    exact ⟨fun s => h kvs s (.refl _), fun k w hm kvs' s hsub => h kvs' s (.inObj hm hsub)⟩
  · rintro ⟨h1, h2⟩ kvs' s hsub
    rcases subVal_vdict_iff.mp hsub with heq | ⟨k, w, hm, hs⟩
    · injection heq with heq'; subst heq'; exact h1 s
    · exact h2 k w hm kvs' s hs

theorem strEntryFree_varr {key : String} {xs : List Val} :
    StrEntryFree key (.varr xs) ↔ ∀ w ∈ xs, StrEntryFree key w := by
  constructor
  · intro h w hm kvs s hsub
    exact h kvs s (.inArr hm hsub)
  · intro h kvs s hsub
    rcases subVal_varr_iff.mp hsub with heq | ⟨w, hm, hs⟩
    · cases heq
    · exact h w hm kvs s hs

theorem strEntryFree_vnull {key : String} : StrEntryFree key .vnull := by
  intro kvs s hsub; rw [subVal_vnull] at hsub; cases hsub

theorem strEntryFree_vbool {key : String} {b : Bool} : StrEntryFree key (.vbool b) := by
  intro kvs s hsub; rw [subVal_vbool] at hsub; cases hsub

theorem strEntryFree_vint {key : String} {n : Int} : StrEntryFree key (.vint n) := by
  intro kvs s hsub; rw [subVal_vint] at hsub; cases hsub

theorem strEntryFree_vstr {key : String} {s0 : String} : StrEntryFree key (.vstr s0) := by
  intro kvs s hsub; rw [subVal_vstr] at hsub; cases hsub

theorem strEntryFree_vtype {key : String} {t : SType} : StrEntryFree key (.vtype t) := by
  intro kvs s hsub; rw [subVal_vtype] at hsub; cases hsub

theorem removeTargetKey_vstr_inv :
    ∀ (n : Nat) (t : String) (v : Val) (s : String),
      removeTargetKey n t v = .ok (.vstr s) → v = .vstr s := by
  intro n t v s h
  cases n with
  | zero => cases h
  | succ m =>
      cases v <;> simp only [removeTargetKey] at h <;>
        first
          | (cases h; rfl)
          | (repeat' split at h
             all_goals cases h)

theorem removeTargetKey_strEntryFree : ∀ n : Nat,
    (∀ (t : String) (v r : Val), removeTargetKey n t v = .ok r → StrEntryFree t r)
    ∧ (∀ (t : String) (kvs r : VObj), removeTargetKeyObj n t kvs = .ok r →
        (∀ s, (t, Val.vstr s) ∉ r) ∧ ∀ k w, (k, w) ∈ r → StrEntryFree t w)
    ∧ (∀ (t : String) (xs r : List Val), removeTargetKeyList n t xs = .ok r →
        ∀ w ∈ r, StrEntryFree t w) := by
  intro n
  induction n with
  | zero =>
      refine ⟨?_, ?_, ?_⟩ <;> intro t a r h <;> cases h
  | succ m ih =>
      obtain ⟨ihv, iho, ihl⟩ := ih
      refine ⟨?_, ?_, ?_⟩
      · intro t v r h
        cases v <;> simp only [removeTargetKey] at h
        case vnull => cases h; exact strEntryFree_vnull
        case vbool b => cases h; exact strEntryFree_vbool
        case vint k => cases h; exact strEntryFree_vint
        case vstr s => cases h; exact strEntryFree_vstr
        case vtype st => cases h; exact strEntryFree_vtype
        case vdict kvs =>
            cases hro : removeTargetKeyObj m t kvs with
            | ok kvs' =>
                rw [hro] at h; cases h
                exact strEntryFree_vdict.mpr (iho _ _ _ hro)
            | error e => rw [hro] at h; cases h
        case varr xs =>
            cases hrl : removeTargetKeyList m t xs with
            | ok xs' =>
                rw [hrl] at h; cases h
                exact strEntryFree_varr.mpr (ihl _ _ _ hrl)
            | error e => rw [hrl] at h; cases h
      · intro t kvs r h
        induction kvs generalizing r with
        | nil =>
            simp only [removeTargetKeyObj] at h; cases h
            exact ⟨fun s => by simp, by simp⟩
        | cons a rest ihrest =>
            obtain ⟨k, v⟩ := a
            simp only [removeTargetKeyObj] at h
            split at h
            · exact iho _ _ _ h
            · rename_i hskip
              cases hrv : removeTargetKey m t v with
              | ok v' =>
                  rw [hrv] at h
                  cases hrr : removeTargetKeyObj m t rest with
                  | ok rest' =>
                      rw [hrr] at h; cases h
                      obtain ⟨hr1, hr2⟩ := iho _ _ _ hrr
                      refine ⟨?_, ?_⟩
                      · intro s hmem
                        rcases List.mem_cons.mp hmem with heq | htail
                        · injection heq with hk hv'
                          subst hk
                          rw [← hv'] at hrv
                          have hv2 := removeTargetKey_vstr_inv m t v s hrv
                          subst hv2
                          simp at hskip
                        · exact hr1 s htail
                      · intro k2 w hmem
                        rcases List.mem_cons.mp hmem with heq | htail
                        · injection heq with hk hw; subst hw
                          exact ihv _ _ _ hrv
                        · exact hr2 k2 w htail
                  | error e => rw [hrr] at h; cases h
              | error e => rw [hrv] at h; cases h
      · intro t xs r h
        induction xs generalizing r with
        | nil => simp only [removeTargetKeyList] at h; cases h; simp
        | cons x rest ihrest =>
            simp only [removeTargetKeyList] at h
            cases hrv : removeTargetKey m t x with
            | ok x' =>
                rw [hrv] at h
                cases hrr : removeTargetKeyList m t rest with
                | ok rest' =>
                    rw [hrr] at h; cases h
                    intro w hmem
                    rcases List.mem_cons.mp hmem with heq | htail
                    · subst heq; exact ihv _ _ _ hrv
                    · exact ihl _ _ _ hrr w htail
                | error e => rw [hrr] at h; cases h
            | error e => rw [hrv] at h; cases h

/-- C6 — counterexample.  A boolean-valued `default` survives the Google
dialect: `_remove_target_key` only removes entries whose value is a
string. -/
theorem C6_counterexample_bool_default_kept :
    googleGenerate 20 boolDefaultBase = .ok boolDefaultGoogleOut
    ∧ HasEntry "default" (.vbool false) boolDefaultGoogleOut :=
  ⟨rfl,
   ⟨[("type", .vstr "boolean"), ("default", .vbool false)],
    SubVal.inObj (List.Mem.tail _ (List.Mem.tail _ (List.Mem.head _)))
      (SubVal.inObj (List.Mem.tail _ (List.Mem.head _))
        (SubVal.inObj (List.Mem.head _) (SubVal.refl _))),
    List.Mem.tail _ (List.Mem.head _)⟩⟩

/-- C6 — amended.  The Google dialect strips every `default` entry whose
value is a string, at any nesting depth; `default` entries with non-string
values are retained (the `isinstance(value, str)` guard of
`_remove_target_key`, written for title stripping, stays in force). -/
theorem C6_no_string_default_in_google_output :
    ∀ (n : Nat) (base r : Val), googleGenerate n base = .ok r → StrEntryFree "default" r := by
  intro n base r h
  unfold googleGenerate at h
  cases hg : genericGenerate n base with
  | ok s =>
      rw [hg] at h
      exact (removeTargetKey_strEntryFree n).1 _ _ _ h
  | error e => rw [hg] at h; cases h

/-- C6 — witness: the amended theorem applied to the boolean-default
schema (its bool default survives, but no string-valued default occurs). -/
theorem C6_no_string_default_witness : StrEntryFree "default" boolDefaultGoogleOut :=
  C6_no_string_default_in_google_output 20 boolDefaultBase boolDefaultGoogleOut rfl

/-! ## C5: termination of the inlining pass

The measure: along any run, `visited` only grows, and a `$ref` expansion
step adds a name that is drawn from the finite set `R` of reference
targets of the input (plus the marker `"#"`) and was not visited yet.
Between expansions the traversal descends structurally. -/

theorem refTargetsObj_of_mem_ref {kvs : VObj} {s : String}
    (h : ("$ref", Val.vstr s) ∈ kvs) : lastComp s ∈ refTargetsObj kvs := by
  induction kvs with
  | nil => cases h
  | cons a rest ih =>
      obtain ⟨k, v⟩ := a
      rcases List.mem_cons.mp h with heq | htail
      · injection heq with hk hv
        subst hk; subst hv
        simp [refTargetsObj]
      · simp only [refTargetsObj, List.mem_append]
        exact Or.inr (ih htail)

theorem refTargets_sub_of_mem {kvs : VObj} {k : String} {w : Val}
    (h : (k, w) ∈ kvs) : ∀ x ∈ refTargets w, x ∈ refTargetsObj kvs := by
  induction kvs with
  | nil => cases h
  | cons a rest ih =>
      obtain ⟨k', v'⟩ := a
      intro x hx
      rcases List.mem_cons.mp h with heq | htail
      · injection heq with hk hv
        subst hv
        simp only [refTargetsObj, List.mem_append]
        exact Or.inl (Or.inr hx)
      · simp only [refTargetsObj, List.mem_append]
        exact Or.inr (ih htail x hx)

theorem refTargets_sub_of_mem_list {xs : List Val} {w : Val}
    (h : w ∈ xs) : ∀ x ∈ refTargets w, x ∈ refTargetsList xs := by
  induction xs with
  | nil => cases h
  | cons y rest ih =>
      intro x hx
      rcases List.mem_cons.mp h with heq | htail
      · subst heq
        simp only [refTargetsList, List.mem_append]
        exact Or.inl hx
      · simp only [refTargetsList, List.mem_append]
        exact Or.inr (ih htail x hx)

theorem refTargets_of_subVal : ∀ {v u : Val}, SubVal v u →
    ∀ kvs s, u = .vdict kvs → ("$ref", Val.vstr s) ∈ kvs → lastComp s ∈ refTargets v := by
  intro v u hsub
  induction hsub with
  | refl w =>
      intro kvs s hequ hmem
      subst hequ
      simp only [refTargets]
      exact refTargetsObj_of_mem_ref hmem
  | inObj hm hs ih =>
      intro kvs s hequ hmem
      exact refTargets_sub_of_mem hm _ (ih kvs s hequ hmem)
  | inArr hm hs ih =>
      intro kvs s hequ hmem
      exact refTargets_sub_of_mem_list hm _ (ih kvs s hequ hmem)

/-- Every value is reference-bounded by its own target collection. -/
theorem refBounded_refTargets (v : Val) : RefBounded (refTargets v) v :=
  fun kvs s hsub hmem => refTargets_of_subVal hsub kvs s rfl hmem

theorem refBounded_mono {R R' : List String} {v : Val}
    (hsub : ∀ x ∈ R, x ∈ R') (h : RefBounded R v) : RefBounded R' v :=
  fun kvs s h1 h2 => hsub _ (h kvs s h1 h2)

theorem refBounded_vdict_iff {R : List String} {kvs : VObj} :
    RefBounded R (.vdict kvs)
      ↔ ((∀ s, ("$ref", Val.vstr s) ∈ kvs → lastComp s ∈ R)
          ∧ ∀ k w, (k, w) ∈ kvs → RefBounded R w) := by
  constructor
  · intro h
    exact ⟨fun s hm => h kvs s (.refl _) hm,
           fun k w hm kvs' s hsub hm' => h kvs' s (.inObj hm hsub) hm'⟩
  · rintro ⟨h1, h2⟩ kvs' s hsub hm
    rcases subVal_vdict_iff.mp hsub with heq | ⟨k, w, hmw, hs⟩
    · injection heq with heq'; subst heq'; exact h1 s hm
    · exact h2 k w hmw kvs' s hs hm

theorem refBounded_varr_iff {R : List String} {xs : List Val} :
    RefBounded R (.varr xs) ↔ ∀ w ∈ xs, RefBounded R w := by
  constructor
  · intro h w hm kvs s hsub hm'
    exact h kvs s (.inArr hm hsub) hm'
  · intro h kvs s hsub hm
    rcases subVal_varr_iff.mp hsub with heq | ⟨w, hmw, hs⟩
    · cases heq
    · exact h w hmw kvs s hs hm

theorem refBounded_vstr {R : List String} {s : String} : RefBounded R (.vstr s) := by
  intro kvs s' hsub; rw [subVal_vstr] at hsub; cases hsub

theorem refBounded_leaf {R : List String} {v : Val}
    (h : ∀ kvs : VObj, v ≠ .vdict kvs) (h' : ∀ xs : List Val, v ≠ .varr xs) :
    RefBounded R v := by
  intro kvs s hsub hm
  cases hsub with
  | refl => exact absurd rfl (h kvs)
  | inObj hmw hs => exact absurd rfl (h _)
  | inArr hmw hs => exact absurd rfl (h' _)

/-! Dict operations only rearrange entries. -/

theorem mem_dictSet {kvs : VObj} {k : String} {v : Val} {a : String} {b : Val}
    (h : (a, b) ∈ dictSet kvs k v) : (a = k ∧ b = v) ∨ (a, b) ∈ kvs := by
  induction kvs with
  | nil =>
      simp only [dictSet] at h
      rcases List.mem_cons.mp h with heq | hnil
      · injection heq with h1 h2; exact Or.inl ⟨h1, h2⟩
      · cases hnil
  | cons p rest ih =>
      obtain ⟨k', v'⟩ := p
      simp only [dictSet] at h
      split at h
      · rcases List.mem_cons.mp h with heq | htail
        · injection heq with h1 h2; exact Or.inl ⟨h1, h2⟩
        · exact Or.inr (List.Mem.tail _ htail)
      · rcases List.mem_cons.mp h with heq | htail
        · injection heq with h1 h2; subst h1; subst h2
          exact Or.inr (List.Mem.head _)
        · rcases ih htail with hl | hr
          · exact Or.inl hl
          · exact Or.inr (List.Mem.tail _ hr)

theorem mem_dictRemove {kvs : VObj} {k : String} {a : String} {b : Val}
    (h : (a, b) ∈ dictRemove kvs k) : (a, b) ∈ kvs := by
  induction kvs with
  | nil => cases h
  | cons p rest ih =>
      obtain ⟨k', v'⟩ := p
      simp only [dictRemove] at h
      split at h
      · exact List.Mem.tail _ h
      · rcases List.mem_cons.mp h with heq | htail
        · injection heq with h1 h2; subst h1; subst h2
          exact List.Mem.head _
        · exact List.Mem.tail _ (ih htail)

theorem mem_dictUpdate {kvs upd : VObj} {a : String} {b : Val}
    (h : (a, b) ∈ dictUpdate kvs upd) : (a, b) ∈ kvs ∨ (a, b) ∈ upd := by
  induction upd generalizing kvs with
  | nil => exact Or.inl h
  | cons u rest ih =>
      obtain ⟨ku, vu⟩ := u
      simp only [dictUpdate, List.foldl_cons] at h
      rcases @ih (dictSet kvs ku vu) h with hl | hr
      · rcases mem_dictSet hl with ⟨h1, h2⟩ | hk
        · subst h1; subst h2; exact Or.inr (List.Mem.head _)
        · exact Or.inl hk
      · exact Or.inr (List.Mem.tail _ hr)

theorem refBounded_dictSet {R : List String} {kvs : VObj} {k : String} {w : Val}
    (hkvs : RefBounded R (.vdict kvs)) (hw : RefBounded R w)
    (href : k = "$ref" → ∀ s, w = .vstr s → lastComp s ∈ R) :
    RefBounded R (.vdict (dictSet kvs k w)) := by
  obtain ⟨h1, h2⟩ := refBounded_vdict_iff.mp hkvs
  refine refBounded_vdict_iff.mpr ⟨?_, ?_⟩
  · intro s hm
    rcases mem_dictSet hm with ⟨hk, hv⟩ | hk
    · exact href hk.symm s hv.symm
    · exact h1 s hk
  · intro k2 w2 hm
    rcases mem_dictSet hm with ⟨hk, hv⟩ | hk
    · subst hv; exact hw
    · exact h2 k2 w2 hk

theorem refBounded_dictRemove {R : List String} {kvs : VObj} {k : String}
    (hkvs : RefBounded R (.vdict kvs)) : RefBounded R (.vdict (dictRemove kvs k)) := by
  obtain ⟨h1, h2⟩ := refBounded_vdict_iff.mp hkvs
  refine refBounded_vdict_iff.mpr ⟨?_, ?_⟩
  · exact fun s hm => h1 s (mem_dictRemove hm)
  · exact fun k2 w2 hm => h2 k2 w2 (mem_dictRemove hm)

theorem refBounded_dictUpdate {R : List String} {kvs upd : VObj}
    (hkvs : RefBounded R (.vdict kvs)) (hupd : RefBounded R (.vdict upd)) :
    RefBounded R (.vdict (dictUpdate kvs upd)) := by
  obtain ⟨h1, h2⟩ := refBounded_vdict_iff.mp hkvs
  obtain ⟨h1', h2'⟩ := refBounded_vdict_iff.mp hupd
  refine refBounded_vdict_iff.mpr ⟨?_, ?_⟩
  · intro s hm
    rcases mem_dictUpdate hm with hl | hr
    · exact h1 s hl
    · exact h1' s hr
  · intro k2 w2 hm
    rcases mem_dictUpdate hm with hl | hr
    · exact h2 k2 w2 hl
    · exact h2' k2 w2 hr

theorem refBounded_tail {R : List String} {p : String × Val} {rest : VObj}
    (h : RefBounded R (.vdict (p :: rest))) : RefBounded R (.vdict rest) := by
  obtain ⟨h1, h2⟩ := refBounded_vdict_iff.mp h
  exact refBounded_vdict_iff.mpr
    ⟨fun s hm => h1 s (List.Mem.tail _ hm),
     fun k w hm => h2 k w (List.Mem.tail _ hm)⟩

/-! The measure lemmas. -/

theorem newCount_mono {R vis vis' : List String}
    (h : ∀ x ∈ vis, x ∈ vis') : newCount R vis' ≤ newCount R vis := by
  apply Finset.card_le_card
  intro x hx
  rcases Finset.mem_sdiff.mp hx with ⟨h1, h2⟩
  refine Finset.mem_sdiff.mpr ⟨h1, fun hc => h2 ?_⟩
  exact List.mem_toFinset.mpr (h x (List.mem_toFinset.mp hc))

theorem newCount_lt {R vis : List String} {k : String}
    (hk : k ∈ R) (hnk : k ∉ vis) : newCount R (k :: vis) < newCount R vis := by
  apply Finset.card_lt_card
  constructor
  · intro x hx
    rcases Finset.mem_sdiff.mp hx with ⟨h1, h2⟩
    refine Finset.mem_sdiff.mpr ⟨h1, fun hc => h2 ?_⟩
    exact List.mem_toFinset.mpr (List.Mem.tail _ (List.mem_toFinset.mp hc))
  · intro hc
    have hkmem : k ∈ R.toFinset \ vis.toFinset :=
      Finset.mem_sdiff.mpr ⟨List.mem_toFinset.mpr hk,
        fun hm => hnk (List.mem_toFinset.mp hm)⟩
    have := hc hkmem
    rcases Finset.mem_sdiff.mp this with ⟨_, h2⟩
    exact h2 (List.mem_toFinset.mpr (List.Mem.head _))

theorem dictGet_mem {kvs : VObj} {k : String} {b : Val}
    (h : dictGet kvs k = some b) : (k, b) ∈ kvs := by
  induction kvs with
  | nil => cases h
  | cons p rest ih =>
      obtain ⟨k', v'⟩ := p
      simp only [dictGet, List.find?] at h
      split at h
      · rename_i hbeq
        injection h with h1
        subst h1
        have : k' = k := by simpa using hbeq
        subst this
        exact List.Mem.head _
      · exact List.Mem.tail _ (ih (by simpa [dictGet] using h))

theorem inline_ok_invariants :
    ∀ (R : List String) (defs : VObj),
      "#" ∈ R →
      (∀ k b, (k, b) ∈ defs → RefBounded R b) →
      ∀ n : Nat,
      (∀ s vis r vis', RefBounded R s →
        inlineRefs n defs s vis = .ok (r, vis') →
        (∀ x ∈ vis, x ∈ vis') ∧ RefBounded R r)
      ∧ (∀ snap cur vis r vis',
        RefBounded R (.vdict snap) → RefBounded R (.vdict cur) →
        inlineLoop n defs snap cur vis = .ok (r, vis') →
        (∀ x ∈ vis, x ∈ vis') ∧ RefBounded R (.vdict r))
      ∧ (∀ xs vis r vis', (∀ w ∈ xs, RefBounded R w) →
        inlineList n defs xs vis = .ok (r, vis') →
        (∀ x ∈ vis, x ∈ vis') ∧ (∀ w ∈ r, RefBounded R w)) := by
  intro R defs hH hdefs n
  induction n with
  | zero =>
      refine ⟨?_, ?_, ?_⟩
      · intro s vis r vis' hb h; simp [inlineRefs] at h
      · intro snap cur vis r vis' h1 h2 h; simp [inlineLoop] at h
      · intro xs vis r vis' hb h; simp [inlineList] at h
  | succ m ih =>
      obtain ⟨ihr, ihl, ihx⟩ := ih
      refine ⟨?_, ?_, ?_⟩
      · intro s vis r vis' hb h
        cases s <;> simp only [inlineRefs] at h
        case vnull => cases h; exact ⟨fun x hx => hx, hb⟩
        case vbool b => cases h; exact ⟨fun x hx => hx, hb⟩
        case vint k => cases h; exact ⟨fun x hx => hx, hb⟩
        case vstr s0 => cases h; exact ⟨fun x hx => hx, hb⟩
        case vtype t => cases h; exact ⟨fun x hx => hx, hb⟩
        case vdict kvs =>
            cases hl : inlineLoop m defs kvs kvs vis with
            | ok p =>
                obtain ⟨kvs', vis''⟩ := p
                rw [hl] at h; cases h
                exact ihl _ _ _ _ _ hb hb hl
            | error e => rw [hl] at h; cases h
        case varr xs =>
            cases hl : inlineList m defs xs vis with
            | ok p =>
                obtain ⟨xs', vis''⟩ := p
                rw [hl] at h; cases h
                have := ihx _ _ _ _ (refBounded_varr_iff.mp hb) hl
                exact ⟨this.1, refBounded_varr_iff.mpr this.2⟩
            | error e => rw [hl] at h; cases h
      · intro snap cur vis r vis' hsnap hcur h
        cases snap with
        | nil => simp only [inlineLoop] at h; cases h; exact ⟨fun x hx => hx, hcur⟩
        | cons a rest =>
            obtain ⟨k, v⟩ := a
            simp only [inlineLoop] at h
            split at h
            · -- k == "$ref"
              rename_i hkref
              cases v <;> simp only at h
              case vstr s =>
                  split at h
                  · -- already visited: the marker is written
                    rename_i hvis
                    refine ihl rest _ vis r vis' (refBounded_tail hsnap)
                      (refBounded_dictSet hcur refBounded_vstr ?_) h
                    intro _ s' hw
                    injection hw with hw'
                    subst hw'
                    exact hH
                  · rename_i hnvis
                    have hkey : lastComp s ∈ R := by
                      have := (refBounded_vdict_iff.mp hsnap).1 s
                      apply this
                      have : k = "$ref" := by simpa using hkref
                      subst this
                      exact List.Mem.head _
                    split at h
                    · -- definition found, body merged in
                      rename_i bkvs hget
                      have hbody : RefBounded R (.vdict bkvs) :=
                        hdefs _ _ (dictGet_mem hget)
                      have hcur' :
                          RefBounded R (.vdict (dictRemove (dictUpdate cur bkvs) "$ref")) :=
                        refBounded_dictRemove (refBounded_dictUpdate hcur hbody)
                      cases hin : inlineLoop m defs
                          (dictRemove (dictUpdate cur bkvs) "$ref")
                          (dictRemove (dictUpdate cur bkvs) "$ref")
                          (lastComp s :: vis) with
                      | ok p =>
                          obtain ⟨cur'', vis1⟩ := p
                          rw [hin] at h
                          have h1 := ihl _ _ _ _ _ hcur' hcur' hin
                          have h2 := ihl rest cur'' vis1 r vis'
                            (refBounded_tail hsnap) h1.2 h
                          refine ⟨fun x hx => h2.1 x (h1.1 x (List.Mem.tail _ hx)), h2.2⟩
                      | error e => rw [hin] at h; cases h
                    · rename_i hget
                      cases h
                    · -- the reference key is not among the definitions
                      rename_i hget
                      cases hin : inlineLoop m defs cur cur (lastComp s :: vis) with
                      | ok p =>
                          obtain ⟨cur'', vis1⟩ := p
                          rw [hin] at h
                          have h1 := ihl _ _ _ _ _ hcur hcur hin
                          have h2 := ihl rest cur'' vis1 r vis'
                            (refBounded_tail hsnap) h1.2 h
                          refine ⟨fun x hx => h2.1 x (h1.1 x (List.Mem.tail _ hx)), h2.2⟩
                      | error e => rw [hin] at h; cases h
              all_goals cases h
            · -- an ordinary key: the value is traversed
              rename_i hkref
              cases hv : inlineRefs m defs v vis with
              | ok p =>
                  obtain ⟨v', vis1⟩ := p
                  rw [hv] at h
                  have hvb : RefBounded R v :=
                    (refBounded_vdict_iff.mp hsnap).2 k v (List.Mem.head _)
                  have h1 := ihr v vis v' vis1 hvb hv
                  have h2 := ihl rest (dictSet cur k v') vis1 r vis'
                    (refBounded_tail hsnap)
                    (refBounded_dictSet hcur h1.2
                      (fun hkeq => absurd (by simp [hkeq]) hkref)) h
                  exact ⟨fun x hx => h2.1 x (h1.1 x hx), h2.2⟩
              | error e => rw [hv] at h; cases h
      · intro xs vis r vis' hb h
        cases xs with
        | nil => simp only [inlineList] at h; cases h; exact ⟨fun x hx => hx, by simp⟩
        | cons x rest =>
            simp only [inlineList] at h
            cases hv : inlineRefs m defs x vis with
            | ok p =>
                obtain ⟨x', vis1⟩ := p
                rw [hv] at h
                simp only at h
                cases hrest : inlineList m defs rest vis1 with
                | ok q =>
                    obtain ⟨rest', vis2⟩ := q
                    rw [hrest] at h; cases h
                    have h1 := ihr x vis x' vis1 (hb x (List.Mem.head _)) hv
                    have h2 := ihx _ _ _ _
                      (fun w hw => hb w (List.Mem.tail _ hw)) hrest
                    refine ⟨fun y hy => h2.1 y (h1.1 y hy), ?_⟩
                    intro w hw
                    rcases List.mem_cons.mp hw with heq | htail
                    · subst heq; exact h1.2
                    · exact h2.2 w htail
                | error e => rw [hrest] at h; cases h
            | error e => rw [hv] at h; cases h

/-- Running the inlining pass with more fuel cannot change a result that did
not run out of fuel. -/
theorem inline_fuel_mono :
    ∀ n : Nat,
    (∀ defs s vis, inlineRefs n defs s vis ≠ .error .fuelOut →
      ∀ m, n ≤ m → inlineRefs m defs s vis = inlineRefs n defs s vis)
    ∧ (∀ defs snap cur vis, inlineLoop n defs snap cur vis ≠ .error .fuelOut →
      ∀ m, n ≤ m → inlineLoop m defs snap cur vis = inlineLoop n defs snap cur vis)
    ∧ (∀ defs xs vis, inlineList n defs xs vis ≠ .error .fuelOut →
      ∀ m, n ≤ m → inlineList m defs xs vis = inlineList n defs xs vis) := by
  intro n
  induction n with
  | zero =>
      refine ⟨?_, ?_, ?_⟩
      · intro defs s vis h; simp [inlineRefs] at h
      · intro defs snap cur vis h; simp [inlineLoop] at h
      · intro defs xs vis h; simp [inlineList] at h
  | succ k ih =>
      obtain ⟨ihr, ihl, ihx⟩ := ih
      refine ⟨?_, ?_, ?_⟩
      · intro defs s vis h m hnm
        cases m with
        | zero => exact absurd hnm (by omega)
        | succ m' =>
          have hm : k ≤ m' := Nat.le_of_succ_le_succ hnm
          cases s
          case vdict kvs =>
            simp only [inlineRefs] at h ⊢
            cases hl : inlineLoop k defs kvs kvs vis with
            | ok p =>
                have hne : inlineLoop k defs kvs kvs vis ≠ .error .fuelOut := by
                  rw [hl]; intro hq; cases hq
                rw [ihl defs kvs kvs vis hne m' hm, hl]
            | error e =>
                rw [hl] at h
                simp only at h
                have he : e ≠ .fuelOut := fun hq => h (by rw [hq])
                have hne : inlineLoop k defs kvs kvs vis ≠ .error .fuelOut := by
                  rw [hl]; intro hq; exact he (Except.error.inj hq)
                rw [ihl defs kvs kvs vis hne m' hm, hl]
          case varr xs =>
            simp only [inlineRefs] at h ⊢
            cases hl : inlineList k defs xs vis with
            | ok p =>
                have hne : inlineList k defs xs vis ≠ .error .fuelOut := by
                  rw [hl]; intro hq; cases hq
                rw [ihx defs xs vis hne m' hm, hl]
            | error e =>
                rw [hl] at h
                simp only at h
                have he : e ≠ .fuelOut := fun hq => h (by rw [hq])
                have hne : inlineList k defs xs vis ≠ .error .fuelOut := by
                  rw [hl]; intro hq; exact he (Except.error.inj hq)
                rw [ihx defs xs vis hne m' hm, hl]
          all_goals rfl
      · intro defs snap cur vis h m hnm
        cases m with
        | zero => exact absurd hnm (by omega)
        | succ m' =>
          have hm : k ≤ m' := Nat.le_of_succ_le_succ hnm
          cases snap with
          | nil => rfl
          | cons a rest =>
            obtain ⟨key, v⟩ := a
            simp only [inlineLoop] at h ⊢
            by_cases hkref : (key == "$ref") = true
            · rw [if_pos hkref] at h
              rw [if_pos hkref, if_pos hkref]
              cases v
              any_goals rfl
              rename_i s
              simp only at h ⊢
              by_cases hvis : vis.contains (lastComp s) = true
              · rw [if_pos hvis] at h
                rw [if_pos hvis, if_pos hvis]
                exact ihl defs rest (dictSet cur "$ref" (.vstr "#")) vis h m' hm
              · rw [if_neg hvis] at h
                rw [if_neg hvis, if_neg hvis]
                cases hget : dictGet defs (lastComp s) with
                | some b =>
                  cases b
                  any_goals rfl
                  rename_i bkvs
                  rw [hget] at h
                  simp only at h ⊢
                  cases hin : inlineLoop k defs
                        (dictRemove (dictUpdate cur bkvs) "$ref")
                        (dictRemove (dictUpdate cur bkvs) "$ref")
                        (lastComp s :: vis) with
                    | ok p =>
                      obtain ⟨cur'', vis''⟩ := p
                      have hne1 : inlineLoop k defs
                          (dictRemove (dictUpdate cur bkvs) "$ref")
                          (dictRemove (dictUpdate cur bkvs) "$ref")
                          (lastComp s :: vis) ≠ .error .fuelOut := by
                        rw [hin]; intro hq; cases hq
                      rw [hin] at h
                      simp only at h
                      rw [ihl defs _ _ _ hne1 m' hm, hin]
                      simp only
                      exact ihl defs rest cur'' vis'' h m' hm
                    | error e =>
                      rw [hin] at h
                      simp only at h
                      have he : e ≠ .fuelOut := fun hq => h (by rw [hq])
                      have hne1 : inlineLoop k defs
                          (dictRemove (dictUpdate cur bkvs) "$ref")
                          (dictRemove (dictUpdate cur bkvs) "$ref")
                          (lastComp s :: vis) ≠ .error .fuelOut := by
                        rw [hin]; intro hq; exact he (Except.error.inj hq)
                      rw [ihl defs _ _ _ hne1 m' hm, hin]
                | none =>
                  rw [hget] at h
                  simp only at h ⊢
                  cases hin : inlineLoop k defs cur cur (lastComp s :: vis) with
                  | ok p =>
                    obtain ⟨cur'', vis''⟩ := p
                    have hne1 : inlineLoop k defs cur cur (lastComp s :: vis)
                        ≠ .error .fuelOut := by
                      rw [hin]; intro hq; cases hq
                    rw [hin] at h
                    simp only at h
                    rw [ihl defs _ _ _ hne1 m' hm, hin]
                    simp only
                    exact ihl defs rest cur'' vis'' h m' hm
                  | error e =>
                    rw [hin] at h
                    simp only at h
                    have he : e ≠ .fuelOut := fun hq => h (by rw [hq])
                    have hne1 : inlineLoop k defs cur cur (lastComp s :: vis)
                        ≠ .error .fuelOut := by
                      rw [hin]; intro hq; exact he (Except.error.inj hq)
                    rw [ihl defs _ _ _ hne1 m' hm, hin]
            · rw [if_neg hkref] at h
              rw [if_neg hkref, if_neg hkref]
              cases hv : inlineRefs k defs v vis with
              | ok p =>
                obtain ⟨v', vis1⟩ := p
                have hne1 : inlineRefs k defs v vis ≠ .error .fuelOut := by
                  rw [hv]; intro hq; cases hq
                rw [hv] at h
                simp only at h
                rw [ihr defs v vis hne1 m' hm, hv]
                try simp only
                exact ihl defs rest (dictSet cur key v') vis1 h m' hm
              | error e =>
                rw [hv] at h
                simp only at h
                have he : e ≠ .fuelOut := fun hq => h (by rw [hq])
                have hne1 : inlineRefs k defs v vis ≠ .error .fuelOut := by
                  rw [hv]; intro hq; exact he (Except.error.inj hq)
                rw [ihr defs v vis hne1 m' hm, hv]
      · intro defs xs vis h m hnm
        cases m with
        | zero => exact absurd hnm (by omega)
        | succ m' =>
          have hm : k ≤ m' := Nat.le_of_succ_le_succ hnm
          cases xs with
          | nil => rfl
          | cons x rest =>
            simp only [inlineList] at h ⊢
            cases hv : inlineRefs k defs x vis with
            | ok p =>
              obtain ⟨x', vis1⟩ := p
              have hne1 : inlineRefs k defs x vis ≠ .error .fuelOut := by
                rw [hv]; intro hq; cases hq
              rw [hv] at h
              simp only at h
              rw [ihr defs x vis hne1 m' hm, hv]
              try simp only
              cases hrest : inlineList k defs rest vis1 with
              | ok q =>
                have hne2 : inlineList k defs rest vis1 ≠ .error .fuelOut := by
                  rw [hrest]; intro hq; cases hq
                rw [ihx defs rest vis1 hne2 m' hm, hrest]
              | error e =>
                rw [hrest] at h
                simp only at h
                have he : e ≠ .fuelOut := fun hq => h (by rw [hq])
                have hne2 : inlineList k defs rest vis1 ≠ .error .fuelOut := by
                  rw [hrest]; intro hq; exact he (Except.error.inj hq)
                rw [ihx defs rest vis1 hne2 m' hm, hrest]
            | error e =>
              rw [hv] at h
              simp only at h
              have he : e ≠ .fuelOut := fun hq => h (by rw [hq])
              have hne1 : inlineRefs k defs x vis ≠ .error .fuelOut := by
                rw [hv]; intro hq; exact he (Except.error.inj hq)
              rw [ihr defs x vis hne1 m' hm, hv]

/-- Enough fuel always exists for the inlining pass: strong induction on the
number of not-yet-visited reference targets, then on the structural size of
the argument.  Every `$ref` expansion consumes one name of the finite set
`R`; all other steps shrink the remaining structure. -/
theorem inline_exists (R : List String) (defs : VObj) (hH : "#" ∈ R)
    (hdefs : ∀ k b, (k, b) ∈ defs → RefBounded R b) :
    ∀ K sz : Nat, ∀ vis : List String, newCount R vis ≤ K →
      (∀ s, sizeOf s ≤ sz → RefBounded R s →
        ∃ n, inlineRefs n defs s vis ≠ .error .fuelOut)
      ∧ (∀ snap cur, sizeOf snap ≤ sz →
        RefBounded R (.vdict snap) → RefBounded R (.vdict cur) →
        ∃ n, inlineLoop n defs snap cur vis ≠ .error .fuelOut)
      ∧ (∀ xs, sizeOf xs ≤ sz → (∀ w ∈ xs, RefBounded R w) →
        ∃ n, inlineList n defs xs vis ≠ .error .fuelOut) := by
  intro K
  induction K using Nat.strong_induction_on with
  | _ K ihK =>
  intro sz
  induction sz using Nat.strong_induction_on with
  | _ sz ihsz =>
  intro vis hK
  refine ⟨?_, ?_, ?_⟩
  · intro s hsz hb
    cases s
    case vdict kvs =>
      have hlt : sizeOf kvs < sz := by
        have hs := Val.vdict.sizeOf_spec kvs
        omega
      obtain ⟨n, hn⟩ := (ihsz (sizeOf kvs) hlt vis hK).2.1 kvs kvs le_rfl hb hb
      refine ⟨n + 1, ?_⟩
      simp only [inlineRefs]
      cases hl : inlineLoop n defs kvs kvs vis with
      | ok p => obtain ⟨a, b⟩ := p; simp
      | error e => rw [hl] at hn; simpa using hn
    case varr xs =>
      have hlt : sizeOf xs < sz := by
        have hs := Val.varr.sizeOf_spec xs
        omega
      obtain ⟨n, hn⟩ := (ihsz (sizeOf xs) hlt vis hK).2.2 xs le_rfl
        (refBounded_varr_iff.mp hb)
      refine ⟨n + 1, ?_⟩
      simp only [inlineRefs]
      cases hl : inlineList n defs xs vis with
      | ok p => obtain ⟨a, b⟩ := p; simp
      | error e => rw [hl] at hn; simpa using hn
    all_goals exact ⟨1, by simp [inlineRefs]⟩
  · intro snap cur hsz hbs hbc
    cases snap with
    | nil => exact ⟨1, by simp [inlineLoop]⟩
    | cons a rest =>
      obtain ⟨key, v⟩ := a
      have hszrest : sizeOf rest < sz := by
        have h1 := List.cons.sizeOf_spec (key, v) rest
        omega
      by_cases hkref : (key == "$ref") = true
      · cases v
        any_goals
          (refine ⟨1, ?_⟩; simp only [inlineLoop]; rw [if_pos hkref]; simp; done)
        rename_i s
        by_cases hvis : vis.contains (lastComp s) = true
        · have hb2 : RefBounded R (.vdict (dictSet cur "$ref" (.vstr "#"))) := by
            refine refBounded_dictSet hbc refBounded_vstr ?_
            intro _ s' hw
            injection hw with hw'
            subst hw'
            exact hH
          obtain ⟨n, hn⟩ := (ihsz (sizeOf rest) hszrest vis hK).2.1 rest
            (dictSet cur "$ref" (.vstr "#")) le_rfl (refBounded_tail hbs) hb2
          refine ⟨n + 1, ?_⟩
          simp only [inlineLoop]
          rw [if_pos hkref]
          try simp only
          rw [if_pos hvis]
          exact hn
        · have hnvis : lastComp s ∉ vis := by simpa using hvis
          have hkey : lastComp s ∈ R := by
            apply (refBounded_vdict_iff.mp hbs).1 s
            have hk : key = "$ref" := by simpa using hkref
            subst hk
            exact List.Mem.head _
          have hKpos : newCount R (lastComp s :: vis) < K :=
            lt_of_lt_of_le (newCount_lt hkey hnvis) hK
          cases hget : dictGet defs (lastComp s) with
          | some b =>
            by_cases hbd : ∃ bkvs, b = Val.vdict bkvs
            · obtain ⟨bkvs, rfl⟩ := hbd
              have hbody : RefBounded R (.vdict bkvs) :=
                hdefs _ _ (dictGet_mem hget)
              have hcur' :
                  RefBounded R (.vdict (dictRemove (dictUpdate cur bkvs) "$ref")) :=
                refBounded_dictRemove (refBounded_dictUpdate hbc hbody)
              obtain ⟨n1, h1⟩ := ((ihK _ hKpos)
                  (sizeOf (dictRemove (dictUpdate cur bkvs) "$ref"))
                  (lastComp s :: vis) le_rfl).2.1
                  (dictRemove (dictUpdate cur bkvs) "$ref")
                  (dictRemove (dictUpdate cur bkvs) "$ref") le_rfl hcur' hcur'
              cases hres1 : inlineLoop n1 defs
                  (dictRemove (dictUpdate cur bkvs) "$ref")
                  (dictRemove (dictUpdate cur bkvs) "$ref")
                  (lastComp s :: vis) with
              | error e =>
                have he : e ≠ .fuelOut := by rw [hres1] at h1; simpa using h1
                refine ⟨n1 + 1, ?_⟩
                simp only [inlineLoop]
                rw [if_pos hkref]
                try simp only
                rw [if_neg hvis, hget]
                try simp only
                rw [hres1]
                simpa using he
              | ok p =>
                obtain ⟨cur'', vis''⟩ := p
                have hinv := ((inline_ok_invariants R defs hH hdefs n1).2.1)
                  _ _ _ _ _ hcur' hcur' hres1
                have hK2 : newCount R vis'' < K :=
                  lt_of_le_of_lt (newCount_mono hinv.1) hKpos
                obtain ⟨n2, h2⟩ := ((ihK _ hK2) (sizeOf rest) vis'' le_rfl).2.1
                  rest cur'' le_rfl (refBounded_tail hbs) hinv.2
                refine ⟨max n1 n2 + 1, ?_⟩
                have hne1 : inlineLoop n1 defs
                    (dictRemove (dictUpdate cur bkvs) "$ref")
                    (dictRemove (dictUpdate cur bkvs) "$ref")
                    (lastComp s :: vis) ≠ .error .fuelOut := by
                  rw [hres1]; intro hq; cases hq
                have heq1 := (inline_fuel_mono n1).2.1 defs _ _ _ hne1
                  (max n1 n2) (Nat.le_max_left _ _)
                have heq2 := (inline_fuel_mono n2).2.1 defs rest cur'' vis'' h2
                  (max n1 n2) (Nat.le_max_right _ _)
                simp only [inlineLoop]
                rw [if_pos hkref]
                try simp only
                rw [if_neg hvis, hget]
                try simp only
                rw [heq1, hres1]
                try simp only
                rw [heq2]
                exact h2
            · refine ⟨1, ?_⟩
              simp only [inlineLoop]
              rw [if_pos hkref]
              try simp only
              rw [if_neg hvis, hget]
              cases b
              any_goals simp
              exact absurd ⟨_, rfl⟩ hbd
          | none =>
            obtain ⟨n1, h1⟩ := ((ihK _ hKpos) (sizeOf cur)
                (lastComp s :: vis) le_rfl).2.1 cur cur le_rfl hbc hbc
            cases hres1 : inlineLoop n1 defs cur cur (lastComp s :: vis) with
            | error e =>
              have he : e ≠ .fuelOut := by rw [hres1] at h1; simpa using h1
              refine ⟨n1 + 1, ?_⟩
              simp only [inlineLoop]
              rw [if_pos hkref]
              try simp only
              rw [if_neg hvis, hget]
              try simp only
              rw [hres1]
              simpa using he
            | ok p =>
              obtain ⟨cur'', vis''⟩ := p
              have hinv := ((inline_ok_invariants R defs hH hdefs n1).2.1)
                _ _ _ _ _ hbc hbc hres1
              have hK2 : newCount R vis'' < K :=
                lt_of_le_of_lt (newCount_mono hinv.1) hKpos
              obtain ⟨n2, h2⟩ := ((ihK _ hK2) (sizeOf rest) vis'' le_rfl).2.1
                rest cur'' le_rfl (refBounded_tail hbs) hinv.2
              refine ⟨max n1 n2 + 1, ?_⟩
              have hne1 : inlineLoop n1 defs cur cur (lastComp s :: vis)
                  ≠ .error .fuelOut := by
                rw [hres1]; intro hq; cases hq
              have heq1 := (inline_fuel_mono n1).2.1 defs _ _ _ hne1
                (max n1 n2) (Nat.le_max_left _ _)
              have heq2 := (inline_fuel_mono n2).2.1 defs rest cur'' vis'' h2
                (max n1 n2) (Nat.le_max_right _ _)
              simp only [inlineLoop]
              rw [if_pos hkref]
              try simp only
              rw [if_neg hvis, hget]
              try simp only
              rw [heq1, hres1]
              try simp only
              rw [heq2]
              exact h2
      · have hbv : RefBounded R v :=
          (refBounded_vdict_iff.mp hbs).2 key v (List.Mem.head _)
        have hszv : sizeOf v < sz := by
          have h1 := List.cons.sizeOf_spec (key, v) rest
          have h2 := Prod.mk.sizeOf_spec key v
          omega
        obtain ⟨n1, h1⟩ := (ihsz (sizeOf v) hszv vis hK).1 v le_rfl hbv
        cases hres1 : inlineRefs n1 defs v vis with
        | error e =>
          have he : e ≠ .fuelOut := by rw [hres1] at h1; simpa using h1
          refine ⟨n1 + 1, ?_⟩
          simp only [inlineLoop]
          rw [if_neg hkref, hres1]
          simpa using he
        | ok p =>
          obtain ⟨v', vis1⟩ := p
          have hinv := ((inline_ok_invariants R defs hH hdefs n1).1)
            _ _ _ _ hbv hres1
          have hK1 : newCount R vis1 ≤ K := le_trans (newCount_mono hinv.1) hK
          have hbset : RefBounded R (.vdict (dictSet cur key v')) := by
            refine refBounded_dictSet hbc hinv.2 ?_
            intro hkeq
            exact absurd (by simp [hkeq]) hkref
          obtain ⟨n2, h2⟩ := (ihsz (sizeOf rest) hszrest vis1 hK1).2.1 rest
            (dictSet cur key v') le_rfl (refBounded_tail hbs) hbset
          refine ⟨max n1 n2 + 1, ?_⟩
          have hne1 : inlineRefs n1 defs v vis ≠ .error .fuelOut := by
            rw [hres1]; intro hq; cases hq
          have heq1 := (inline_fuel_mono n1).1 defs v vis hne1
            (max n1 n2) (Nat.le_max_left _ _)
          have heq2 := (inline_fuel_mono n2).2.1 defs rest
            (dictSet cur key v') vis1 h2 (max n1 n2) (Nat.le_max_right _ _)
          simp only [inlineLoop]
          rw [if_neg hkref, heq1, hres1]
          try simp only
          rw [heq2]
          exact h2
  · intro xs hsz hb
    cases xs with
    | nil => exact ⟨1, by simp [inlineList]⟩
    | cons x rest =>
      have hszx : sizeOf x < sz := by
        have h1 := List.cons.sizeOf_spec x rest
        omega
      have hszrest : sizeOf rest < sz := by
        have h1 := List.cons.sizeOf_spec x rest
        omega
      obtain ⟨n1, h1⟩ := (ihsz (sizeOf x) hszx vis hK).1 x le_rfl
        (hb x (List.Mem.head _))
      cases hres1 : inlineRefs n1 defs x vis with
      | error e =>
        have he : e ≠ .fuelOut := by rw [hres1] at h1; simpa using h1
        refine ⟨n1 + 1, ?_⟩
        simp only [inlineList]
        rw [hres1]
        simpa using he
      | ok p =>
        obtain ⟨x', vis1⟩ := p
        have hinv := ((inline_ok_invariants R defs hH hdefs n1).1)
          _ _ _ _ (hb x (List.Mem.head _)) hres1
        have hK1 : newCount R vis1 ≤ K := le_trans (newCount_mono hinv.1) hK
        obtain ⟨n2, h2⟩ := (ihsz (sizeOf rest) hszrest vis1 hK1).2.2 rest le_rfl
          (fun w hw => hb w (List.Mem.tail _ hw))
        refine ⟨max n1 n2 + 1, ?_⟩
        have hne1 : inlineRefs n1 defs x vis ≠ .error .fuelOut := by
          rw [hres1]; intro hq; cases hq
        have heq1 := (inline_fuel_mono n1).1 defs x vis hne1
          (max n1 n2) (Nat.le_max_left _ _)
        have heq2 := (inline_fuel_mono n2).2.2 defs rest vis1 h2
          (max n1 n2) (Nat.le_max_right _ _)
        simp only [inlineList]
        rw [heq1, hres1]
        try simp only
        rw [heq2]
        cases hres2 : inlineList n2 defs rest vis1 with
        | ok q => obtain ⟨a, b⟩ := q; simp
        | error e =>
          rw [hres2] at h2
          simpa using h2

/-- C5: for every self-referential (recursive) type-model the reference
inlining pass terminates: for arbitrary definitions, schema and visited set
some fuel makes `inlineRefs` finish without exhausting it (the unbounded
recursion of the Python original always reaches a base case), and on the
recursive `Node` model the pass returns the inlined schema carrying the
terminal `"#"` marker at the recursion point. -/
theorem C5_recursive_inlining_terminates :
    (∀ (defs : VObj) (s : Val) (vis : List String),
      ∃ n, inlineRefs n defs s vis ≠ .error .fuelOut)
    ∧ inlineRefs 30 recDefs recRoot [] = .ok (recOut, ["Node"])
    ∧ HasEntry "$ref" (.vstr "#") recOut := by
  refine ⟨?_, rfl, ?_⟩
  · intro defs s vis
    have hb : RefBounded ("#" :: (refTargets s ++ refTargetsObj defs)) s :=
      refBounded_mono
        (fun x hx => List.Mem.tail _ (List.mem_append.mpr (Or.inl hx)))
        (refBounded_refTargets s)
    have hdefs : ∀ k b, (k, b) ∈ defs →
        RefBounded ("#" :: (refTargets s ++ refTargetsObj defs)) b := by
      intro k b hm
      refine refBounded_mono ?_ (refBounded_refTargets b)
      intro x hx
      exact List.Mem.tail _
        (List.mem_append.mpr (Or.inr (refTargets_sub_of_mem hm x hx)))
    obtain ⟨n, hn⟩ := (inline_exists _ defs (List.Mem.head _) hdefs
      (newCount _ vis) (sizeOf s) vis le_rfl).1 s le_rfl hb
    exact ⟨n, hn⟩
  · refine ⟨[("$ref", Val.vstr "#")], ?_, List.Mem.head _⟩
    simp only [recOut]
    refine SubVal.inObj (List.Mem.tail _ (List.Mem.head _)) ?_
    refine SubVal.inObj (List.Mem.head _) ?_
    refine SubVal.inObj (List.Mem.head _) ?_
    exact SubVal.inArr (List.Mem.head _) (SubVal.refl _)
